import Mathlib

/-!
# Verification of the early-reader book generator (src/generate_book.py)

This file shallowly embeds the page-resolution and layout-composition engine
of `generate_book.py`:

* the Python value model used by the YAML-derived configuration
  (`Value`, truthiness, `str()` conversion, dict lookup);
* the cascading text-source resolver `BookBuilder._coerce_text_source`
  and `BookBuilder._text_from_library` (mutually recursive; modelled with
  an explicit fuel parameter, since the source recursion is not
  structurally decreasing through library lookups);
* the page expander `BookBuilder._expand_pages`;
* the horizontal-inset resolution of `BookBuilder._draw_text` and the
  per-page build loop of `BookBuilder.build`.

All definitions follow the Python source; theorems about them settle the
specification claims.
-/

/-- A Python value as it appears in the YAML-loaded configuration:
`None`, strings, integers, booleans, lists and (string-keyed) dicts. -/
inductive Value where
  | vnone : Value
  | vstr (s : String) : Value
  | vint (n : Int) : Value
  | vbool (b : Bool) : Value
  | vlist (xs : List Value) : Value
  | vdict (entries : List (String × Value)) : Value

/-- First-match association lookup, the embedding of Python `dict.get`
(dict keys are unique, so first match is the match). -/
def assocGet {α : Type} : List (String × α) → String → Option α
  | [], _ => none
  | (k, v) :: rest, key => if k = key then some v else assocGet rest key

/-- Python truthiness (`bool(x)`) for embedded values. -/
def pyTruthy : Value → Bool
  | .vnone => false
  | .vstr s => s ≠ ""
  | .vint n => n ≠ 0
  | .vbool b => b
  | .vlist xs => ¬ xs.isEmpty
  | .vdict d => ¬ d.isEmpty

/-- The single-quote character, used when rendering Python `repr`. -/
def pyQuote : String := String.singleton (Char.ofNat 39)

mutual
/-- Python `repr()` of an embedded value (strings quoted). -/
def pyRepr : Value → String
  | .vnone => "None"
  | .vstr s => pyQuote ++ s ++ pyQuote
  | .vint n => toString n
  | .vbool b => if b then "True" else "False"
  | .vlist xs => "[" ++ pyReprL xs ++ "]"
  | .vdict d => "\x7b" ++ pyReprD d ++ "\x7d"

/-- `repr` of list elements, comma separated. -/
def pyReprL : List Value → String
  | [] => ""
  | [x] => pyRepr x
  | x :: xs => pyRepr x ++ ", " ++ pyReprL xs

/-- `repr` of dict items, comma separated. -/
def pyReprD : List (String × Value) → String
  | [] => ""
  | [(k, v)] => pyQuote ++ k ++ pyQuote ++ ": " ++ pyRepr v
  | (k, v) :: r => pyQuote ++ k ++ pyQuote ++ ": " ++ pyRepr v ++ ", " ++ pyReprD r
end

/-- Python `str()` of an embedded value: identity on strings, `repr`-based
rendering otherwise (as in CPython). -/
def pyStr : Value → String
  | .vstr s => s
  | v => pyRepr v

/-- Is `pre` a prefix of the character list `l`?  Backs the embedding of
Python `str.startswith`. -/
def isPrefixL : List Char → List Char → Bool
  | [], _ => true
  | _ :: _, [] => false
  | a :: as, b :: bs => a = b && isPrefixL as bs

/-- Embedding of Python `s.startswith(pre)`. -/
def pyStartswith (s pre : String) : Bool := isPrefixL pre.data s.data

/-- Characters after the first `':'`, or `none` when there is no colon. -/
def afterColon : List Char → Option (List Char)
  | [] => none
  | c :: cs => if c = ':' then some cs else afterColon cs

/-- The third component of Python `s.partition(":")`: everything after the
first colon, `""` when the string has no colon. -/
def partTail (s : String) : String :=
  match afterColon s.data with
  | none => ""
  | some cs => String.mk cs

/-- ASCII lower-casing of one character (embedding of `str.lower` for the
ASCII identifiers the config uses). -/
def asciiLower (c : Char) : Char :=
  if 65 ≤ c.toNat ∧ c.toNat ≤ 90 then Char.ofNat (c.toNat + 32) else c

/-- Embedding of Python `s.lower()`. -/
def pyLower (s : String) : String := String.mk (s.data.map asciiLower)

/-- Whitespace test used by Python `str.strip` / `str.split`. -/
def isWs (c : Char) : Bool :=
  c = ' ' || c = '\t' || c = '\n' || c = '\r'

/-- Embedding of Python `s.strip()`. -/
def pyStrip (s : String) : String :=
  String.mk (((s.data.dropWhile isWs).reverse.dropWhile isWs).reverse)

/-- Count maximal non-whitespace runs; `inw` records whether the scan is
currently inside a word. -/
def cwAux : List Char → Bool → Nat
  | [], _ => 0
  | c :: cs, inw =>
    if isWs c then cwAux cs false
    else (if inw then 0 else 1) + cwAux cs true

/-- Embedding of Python `len(s.split())`: the whitespace-separated word
count used for the running word total. -/
def countWords (s : String) : Nat := cwAux s.data false

/-- `xs[index]` for an in-range index (the caller checks the bound, as the
source does); `None` outside the range. -/
def nthD : List Value → Nat → Value
  | [], _ => .vnone
  | x :: _, 0 => x
  | _ :: xs, n + 1 => nthD xs n

/-- `xs[-1]` on a non-empty list; `None` on the empty list (the source
checks emptiness first). -/
def lastD : List Value → Value
  | [] => .vnone
  | [x] => x
  | _ :: x :: xs => lastD (x :: xs)

mutual
/-- A size measure on values, for well-founded induction over the
resolver's recursion. -/
def vsize : Value → Nat
  | .vnone => 1
  | .vstr _ => 1
  | .vint _ => 1
  | .vbool _ => 1
  | .vlist xs => 1 + vsizeL xs
  | .vdict d => 1 + vsizeD d

/-- Summed size of list elements. -/
def vsizeL : List Value → Nat
  | [] => 0
  | x :: xs => vsize x + vsizeL xs

/-- Summed size of dict values. -/
def vsizeD : List (String × Value) → Nat
  | [] => 0
  | (_, v) :: r => vsize v + vsizeD r
end

mutual
/-- A value is library-reference-free: it contains no `"@library..."`
string and no mapping with a `"library"` key, anywhere inside. -/
def libFree : Value → Bool
  | .vnone => true
  | .vint _ => true
  | .vbool _ => true
  | .vstr s => ¬ pyStartswith s "@library"
  | .vlist xs => libFreeL xs
  | .vdict d => (assocGet d "library").isNone && libFreeD d

/-- `libFree` on every list element. -/
def libFreeL : List Value → Bool
  | [] => true
  | x :: xs => libFree x && libFreeL xs

/-- `libFree` on every dict value. -/
def libFreeD : List (String × Value) → Bool
  | [] => true
  | (_, v) :: r => libFree v && libFreeD r
end

mutual
/-- A value contains no list, anywhere inside (such values are resolved
independently of the sub-page index). -/
def noList : Value → Bool
  | .vnone => true
  | .vint _ => true
  | .vbool _ => true
  | .vstr _ => true
  | .vlist _ => false
  | .vdict d => noListD d

/-- `noList` on every dict value. -/
def noListD : List (String × Value) → Bool
  | [] => true
  | (_, v) :: r => noList v && noListD r
end

/-- Every entry value of a text library is library-reference-free. -/
def entriesLibFree (lib : List (String × Value)) : Bool := libFreeD lib

/-- A resolved text source (`TextSource` in the source): `mode` is
`"file"` or `"inline"`. -/
structure TextSource where
  mode : String
  value : String
deriving DecidableEq, Repr

/-- The Python exceptions the resolver and renderer can raise:
`ValueError` (with its message), the `AttributeError` raised by
`entry.get(...)` on a non-dict library entry, and `FileNotFoundError`. -/
inductive PyExn where
  | valueError (msg : String) : PyExn
  | attrError : PyExn
  | fileNotFound (msg : String) : PyExn
deriving DecidableEq, Repr

/-- One dispatch step of `BookBuilder._coerce_text_source`: return no
text, return a source, recurse into a sub-value, or jump into the text
library.  Splitting the (pure) dispatch from the (fuelled) recursion
mirrors the `return ...` statements of the Python method one for one. -/
inductive CAction where
  | retNone : CAction
  | retSrc (ts : TextSource) : CAction
  | recurse (w : Value) : CAction
  | callLib (key : String) : CAction

/-- `value.get("default")` as used by the directional branch: the Python
object selected, with absent collapsing to `None`. -/
def dfltOf (d : List (String × Value)) : Value :=
  match assocGet d "default" with
  | some c => c
  | none => .vnone

/-- The candidate selection of the directional branch:
`candidate = value.get(spread_side)` when the side is truthy and
present, else `value.get("default")` when present, else `None`. -/
def dictCandidate (d : List (String × Value)) (side : Option String) : Value :=
  match side with
  | some s =>
    if s ≠ "" then
      match assocGet d s with
      | some c => c
      | none => dfltOf d
    else dfltOf d
  | none => dfltOf d

/-- `if candidate is None: return None` followed by the recursive call:
the tail of the directional branch. -/
def candAction (c : Value) : CAction :=
  match c with
  | .vnone => .retNone
  | c => .recurse c

/-- The directional branch of `_coerce_text_source`: fires when `left`
or `right` is present, otherwise the whole mapping resolves to no
text. -/
def dictDirectional (d : List (String × Value))
    (side : Option String) : CAction :=
  if ((assocGet d "left").isSome || (assocGet d "right").isSome) = true then
    candAction (dictCandidate d side)
  else .retNone

/-- The `library` key check of the mapping branch, falling through to
the directional branch. -/
def dictLibrary (d : List (String × Value)) (slug : String)
    (side : Option String) : CAction :=
  match assocGet d "library" with
  | some x => .callLib (if pyTruthy x then pyStr x else slug)
  | none => dictDirectional d side

/-- The `file` key check of the mapping branch. -/
def dictFile (d : List (String × Value)) (slug : String)
    (side : Option String) : CAction :=
  match assocGet d "file" with
  | some x => .retSrc ⟨"file", pyStr x⟩
  | none => dictLibrary d slug side

/-- The mapping branch of `_coerce_text_source`: `inline`, `file`,
`library`, then the directional `left`/`right` branch, then no text. -/
def dictAction (d : List (String × Value)) (slug : String)
    (side : Option String) : CAction :=
  match assocGet d "inline" with
  | some x => .retSrc ⟨"inline", pyStr x⟩
  | none => dictFile d slug side

/-- The dispatch of `BookBuilder._coerce_text_source` (lines 597-658):
`None` -> no text; list -> clamp the index and recurse into the selected
element; dict -> `inline` / `file` / `library` / directional `left`/`right`
with `default` fallback; string -> `@library` lookup or a bare
file/inline source depending on `prefer_inline`; any other scalar ->
inline `str(value)`. -/
def valueAction (v : Value) (index : Nat) (slug : String)
    (side : Option String) (prefer : Bool) : CAction :=
  match v with
  | .vnone => .retNone
  | .vlist xs =>
    if xs.isEmpty then .retNone
    else .recurse (if index < xs.length then nthD xs index else lastD xs)
  | .vdict d => dictAction d slug side
  | .vstr s =>
    if pyStartswith s "@library" then
      .callLib (if partTail s = "" then slug else partTail s)
    else if prefer then .retSrc ⟨"inline", s⟩
    else .retSrc ⟨"file", s⟩
  | .vint n => .retSrc ⟨"inline", pyStr (.vint n)⟩
  | .vbool b => .retSrc ⟨"inline", pyStr (.vbool b)⟩

/-- One dispatch step of `BookBuilder._text_from_library` (lines 660-680):
no library or missing/falsy entry -> no text; dict entry -> recurse into
the entry's region value; non-dict truthy entry -> `entry.get` raises
`AttributeError`. -/
inductive LAction where
  | lretNone : LAction
  | lraise : LAction
  | lgo (w : Value) : LAction

/-- The dispatch of `BookBuilder._text_from_library`. -/
def libAction (lib : List (String × Value)) (key region : String) : LAction :=
  if lib.isEmpty then .lretNone
  else
    match assocGet lib key with
    | none => .lretNone
    | some e =>
      if pyTruthy e then
        match e with
        | .vdict d => .lgo ((assocGet d region).getD .vnone)
        | _ => .lraise
      else .lretNone

mutual
/-- Fuelled embedding of `BookBuilder._coerce_text_source`.  `none`
means the fuel ran out (the Python recursion would still be running);
`some r` is the result the Python call returns (or the exception it
raises).  Arguments follow the Python signature: value, index, page
slug, region name, spread side, `prefer_inline`. -/
def coerceF : Nat → List (String × Value) → Value → Nat → String → String →
    Option String → Bool → Option (Except PyExn (Option TextSource))
  | 0, _, _, _, _, _, _, _ => none
  | Nat.succ n, lib, v, index, slug, region, side, prefer =>
    match valueAction v index slug side prefer with
    | .retNone => some (Except.ok none)
    | .retSrc ts => some (Except.ok (some ts))
    | .recurse w => coerceF n lib w index slug region side prefer
    | .callLib key => tflF n lib key region index side

/-- Fuelled embedding of `BookBuilder._text_from_library`.  A library
hit recurses into the entry's region value with the library key as the
page slug and `prefer_inline=True`, exactly as the source does. -/
def tflF : Nat → List (String × Value) → String → String → Nat →
    Option String → Option (Except PyExn (Option TextSource))
  | 0, _, _, _, _, _ => none
  | Nat.succ n, lib, key, region, index, side =>
    match libAction lib key region with
    | .lretNone => some (Except.ok none)
    | .lraise => some (Except.error PyExn.attrError)
    | .lgo w => coerceF n lib w index key region side true
end

/-- Embedding of `BookBuilder._resolve_text_reference`: fall back to a
library lookup keyed by the page slug when the raw reference is `None`
and coercion produced no text. -/
def resolveRefF (fuel : Nat) (lib : List (String × Value)) (ref : Value)
    (index : Nat) (slug region : String) (side : Option String)
    (prefer : Bool) : Option (Except PyExn (Option TextSource)) :=
  match coerceF fuel lib ref index slug region side prefer with
  | none => none
  | some (Except.error e) => some (Except.error e)
  | some (Except.ok (some ts)) => some (Except.ok (some ts))
  | some (Except.ok none) =>
    match ref with
    | .vnone => tflF fuel lib slug region index side
    | _ => some (Except.ok none)

/-- A raw page block from the configuration (`PageBlock` in the spec),
with the fields `_expand_pages` reads.  Numeric fields are carried in
points, already converted, matching the state `_expand_pages` sees. -/
structure Block where
  slug : Option String
  kind : Option Value
  span : Option Int
  image : Option String
  text : List (String × Value)
  image_scale : Option ℚ
  offx : Option ℚ
  offy : Option ℚ

/-- A fully resolved page record (`PageSpec` in the source). -/
structure PageSpec where
  slug : String
  sequence_index : Nat
  page_number : Nat
  kind : String
  spread_side : Option String
  image_path : String
  image_scale : ℚ
  offx : ℚ
  offy : ℚ
  text_refs : List (String × Option TextSource)
deriving DecidableEq, Repr

/-- The builder state `_expand_pages` reads: text library, configured
region names (in insertion order), whether pages come from the library
(`using_library_pages`, which forces `prefer_inline`), the image folder
and the defaults. -/
structure Ctx where
  lib : List (String × Value)
  regions : List String
  preferInline : Bool
  imageFolder : String
  defaultScale : ℚ
  defOffx : ℚ
  defOffy : ℚ

/-- `str(block.get("kind", "page")).strip().lower() or "page"`. -/
def normKind (b : Block) : String :=
  let t := pyLower (pyStrip (pyStr (b.kind.getD (.vstr "page"))))
  if t = "" then "page" else t

/-- The block's span: the explicit value, else 2 for spreads and 1
otherwise. -/
def effSpanInt (b : Block) (kind : String) : Int :=
  match b.span with
  | some s => s
  | none => if kind = "spread" then 2 else 1

/-- `block.get("slug") or f"page-{len(pages)}"`: the fallback slug uses
the length of the whole page list. -/
def effSlug (b : Block) (nblocks : Nat) : String :=
  match b.slug with
  | some s => if s = "" then "page-" ++ toString nblocks else s
  | none => "page-" ++ toString nblocks

/-- `BookBuilder._resolve_media_path`: relative names join the image
folder, absolute names pass through (POSIX paths). -/
def resolveMedia (ctx : Ctx) (name : String) : String :=
  if pyStartswith name "/" then name else ctx.imageFolder ++ "/" ++ name

/-- The raw slug value, as the error messages format it
(`block.get('slug')`, so `None` when absent). -/
def rawSlugV (b : Block) : Value :=
  match b.slug with
  | some s => .vstr s
  | none => .vnone

/-- Is the block's image name missing or empty (`if not image_name`)? -/
def imgMissing (b : Block) : Bool :=
  match b.image with
  | none => true
  | some s => s = ""

/-- Resolve every configured region of one sub-page, in region order
(the loop over `self.text_regions.keys()` in `_expand_pages`).
`block_text.get(region_name)` collapses an absent key to `None`. -/
def resolveRegions (fuel : Nat) (ctx : Ctx) (btext : List (String × Value))
    (index : Nat) (slug : String) (side : Option String) :
    List String → Option (Except PyExn (List (String × Option TextSource)))
  | [] => some (Except.ok [])
  | r :: rs =>
    match resolveRefF fuel ctx.lib ((assocGet btext r).getD .vnone) index slug r
        side ctx.preferInline with
    | none => none
    | some (Except.error e) => some (Except.error e)
    | some (Except.ok ts) =>
      match resolveRegions fuel ctx btext index slug side rs with
      | none => none
      | some (Except.error e) => some (Except.error e)
      | some (Except.ok rest) => some (Except.ok ((r, ts) :: rest))

/-- The `for index in range(span)` body of `_expand_pages`: emit one
`PageSpec` per sub-page, checking the image per iteration, assigning
`spread_side` from the index, resolving text, and incrementing the page
number once per emitted sub-page. -/
def subPages (fuel : Nat) (ctx : Ctx) (nblocks : Nat) (b : Block)
    (kind : String) : Nat → Nat → Nat →
    Option (Except PyExn (List PageSpec))
  | 0, _, _ => some (Except.ok [])
  | Nat.succ rem, index, pn =>
    let slug := effSlug b nblocks
    match b.image with
    | none =>
      some (Except.error (.valueError
        ("Every page needs an image (slug=" ++ slug ++ ")")))
    | some img =>
      if img = "" then
        some (Except.error (.valueError
          ("Every page needs an image (slug=" ++ slug ++ ")")))
      else
        let side : Option String :=
          if kind = "spread" then some (if index = 0 then "left" else "right")
          else none
        match resolveRegions fuel ctx b.text index slug side ctx.regions with
        | none => none
        | some (Except.error e) => some (Except.error e)
        | some (Except.ok trefs) =>
          match subPages fuel ctx nblocks b kind rem (index + 1) (pn + 1) with
          | none => none
          | some (Except.error e) => some (Except.error e)
          | some (Except.ok ps) =>
            some (Except.ok
              ({ slug := slug
                 sequence_index := index
                 page_number := pn
                 kind := kind
                 spread_side := side
                 image_path := resolveMedia ctx img
                 image_scale := b.image_scale.getD ctx.defaultScale
                 offx := b.offx.getD ctx.defOffx
                 offy := b.offy.getD ctx.defOffy
                 text_refs := trefs } :: ps))

/-- The block loop of `BookBuilder._expand_pages`: derive kind and span,
reject `span < 1`, reject a spread starting on an odd page number, then
expand the sub-pages; the page number threads across blocks. -/
def expandGo (fuel : Nat) (ctx : Ctx) (nblocks : Nat) :
    List Block → Nat → Option (Except PyExn (List PageSpec))
  | [], _ => some (Except.ok [])
  | b :: rest, pn =>
    let kind := normKind b
    let span := effSpanInt b kind
    if span < 1 then
      some (Except.error (.valueError
        ("Page span must be >= 1 (slug=" ++ pyStr (rawSlugV b) ++ ")")))
    else if kind = "spread" ∧ pn % 2 = 1 then
      some (Except.error (.valueError
        ("Spread " ++ pyQuote ++ pyStr (rawSlugV b) ++ pyQuote ++
          " must start on a left-hand page. Insert a blank page before it " ++
          "so it begins on an even page number.")))
    else
      match subPages fuel ctx nblocks b kind span.toNat 0 pn with
      | none => none
      | some (Except.error e) => some (Except.error e)
      | some (Except.ok ps) =>
        match expandGo fuel ctx nblocks rest (pn + span.toNat) with
        | none => none
        | some (Except.error e) => some (Except.error e)
        | some (Except.ok qs) => some (Except.ok (ps ++ qs))

/-- `BookBuilder._expand_pages`, consumed eagerly (as `build` does):
page numbering starts at 1 and the slug fallback uses the total number
of blocks. -/
def expandPagesF (fuel : Nat) (ctx : Ctx) (blocks : List Block) :
    Option (Except PyExn (List PageSpec)) :=
  expandGo fuel ctx blocks.length blocks 1

/-- Total number of sub-pages a block list requests (each block's
effective span). -/
def sumSpans (blocks : List Block) : Nat :=
  (blocks.map (fun b => (effSpanInt b (normKind b)).toNat)).sum

/-- The expander raises one of its three configuration errors if and
only if the block walk, threading the page number, reaches a block that
violates a check: `span < 1`, a spread starting on an odd page number,
or a missing/empty image name.  Later blocks are reached only when the
earlier ones expand successfully (their text resolution terminates
without an exception). -/
def ReachesViol (ctx : Ctx) (nblocks : Nat) :
    List Block → Nat → Prop
  | [], _ => False
  | b :: rest, pn =>
    let kind := normKind b
    let span := effSpanInt b kind
    span < 1 ∨ (kind = "spread" ∧ pn % 2 = 1) ∨ imgMissing b = true ∨
      ((∃ n ps, subPages n ctx nblocks b kind span.toNat 0 pn =
          some (Except.ok ps)) ∧
        ReachesViol ctx nblocks rest (pn + span.toNat))

/-- A region's inset configuration in points (`RegionLayout.insets`):
`left`/`right`/`top`/`bottom` are set by the constructor, `inner`,
`outer` and `center` only when configured. -/
structure Insets where
  left : Option ℚ
  right : Option ℚ
  top : Option ℚ
  bottom : Option ℚ
  inner : Option ℚ
  outer : Option ℚ
  center : Option ℚ
deriving DecidableEq, Repr

/-- The horizontal-inset resolution of `BookBuilder._draw_text`
(lines 522-537): start from `left`/`right` (falsy values collapse to 0),
then, when configured, `inner` overrides the left inset on a recto
(odd-numbered) page and the right inset on a verso page, and `outer`
overrides the other side.  Returns `(left_inset, right_inset)`. -/
def resolvedInsets (ins : Insets) (pageNumber : Nat) : ℚ × ℚ :=
  let l := ins.left.getD 0
  let r := ins.right.getD 0
  let isRecto := pageNumber % 2 = 1
  let lr :=
    match ins.inner with
    | none => (l, r)
    | some x => if isRecto then (x, r) else (l, x)
  match ins.outer with
  | none => lr
  | some y => if isRecto then (lr.1, y) else (y, lr.2)

/-- The part of a `RegionLayout` the render loop reads for text drawing:
the optional backing folder for file-mode sources and the inset map. -/
structure RegionL where
  folder : Option String
  insets : Insets
deriving DecidableEq, Repr

/-- Abstracted canvas operations: the placeholder background is a white
rectangle plus two diagonal marker lines (`_draw_blank_background`); a
present image draws as a cover-fit page or spread image; each text
region draws one paragraph at its resolved insets; `showPage` ends the
page. -/
inductive ROp where
  | rectWhite : ROp
  | diagLine : ROp
  | image (path : String) : ROp
  | spreadImage (path : String) (side : Option String) : ROp
  | text (region : String) (content : String) (ins : ℚ × ℚ) : ROp
  | showPage : ROp
deriving DecidableEq, Repr

/-- One manuscript entry (`self.manuscript_entries.append(...)`). -/
structure MEntry where
  page_number : Nat
  slug : String
  spread_side : Option String
  region : String
  content : String
deriving DecidableEq, Repr

/-- The builder's mutable render state: page counters, the
missing-images report, the emitted canvas operations, the running word
count and the manuscript log. -/
structure BState where
  total : Nat
  withArt : Nat
  missing : List (String × String)
  ops : List ROp
  words : Nat
  manuscript : List MEntry
deriving DecidableEq, Repr

/-- The renderer's external context: configured regions (name and layout, in
order), the text files on disk (path to content) and the set of existing
image paths. -/
structure BCtx where
  regions : List (String × RegionL)
  files : List (String × String)
  imgs : List String

/-- Does a path belong to the set of existing files (the embedding of
`Path.exists` over the abstract file system)? -/
def pathExists (fs : List String) (path : String) : Bool :=
  match fs with
  | [] => false
  | f :: rest => if f = path then true else pathExists rest path

/-- Python `dict.setdefault(k, v)`: keep an existing entry, append the
pair otherwise. -/
def setdefault (l : List (String × String)) (k v : String) :
    List (String × String) :=
  match assocGet l k with
  | some _ => l
  | none => l ++ [(k, v)]

/-- The content acquisition of `BookBuilder._draw_text`: inline content
is stripped directly; file mode requires a configured folder
(`ValueError` otherwise) and an existing file (`FileNotFoundError`
otherwise). -/
def textContent (ctx : BCtx) (rname : String) (layout : RegionL)
    (ts : TextSource) : Except PyExn String :=
  if ts.mode = "inline" then Except.ok (pyStrip ts.value)
  else
    match layout.folder with
    | none =>
      Except.error (.valueError
        ("Region " ++ pyQuote ++ rname ++ pyQuote ++
          " is not configured with a folder, so file-based text sources " ++
          "are unavailable."))
    | some f =>
      match assocGet ctx.files (f ++ "/" ++ ts.value) with
      | none =>
        Except.error (.fileNotFound
          ("Text file " ++ pyQuote ++ ts.value ++ pyQuote ++
            " not found in " ++ f))
      | some txt => Except.ok (pyStrip txt)

/-- Embedding of `BookBuilder._draw_text` for one resolved text source.
Empty content draws nothing; otherwise the paragraph is drawn at the
resolved insets and the word count and manuscript log are updated. -/
def drawText (ctx : BCtx) (rname : String) (layout : RegionL)
    (ts : TextSource) (pn : Nat) (side : Option String) (slug : String)
    (st : BState) : Except PyExn BState :=
  match textContent ctx rname layout ts with
  | Except.error e => Except.error e
  | Except.ok content =>
    if content = "" then Except.ok st
    else
      Except.ok
        { st with
          ops := st.ops ++ [ROp.text rname content (resolvedInsets layout.insets pn)]
          words := st.words + countWords content
          manuscript := st.manuscript ++ [⟨pn, slug, side, rname, content⟩] }

/-- The region loop of `BookBuilder._draw_page`: falsy text references
(absent or resolved to none) are skipped, drawing errors abort. -/
def drawPageRegions (ctx : BCtx) (p : PageSpec) :
    List (String × RegionL) → BState → Except PyExn BState
  | [], st => Except.ok st
  | (rname, layout) :: rest, st =>
    match assocGet p.text_refs rname with
    | none => drawPageRegions ctx p rest st
    | some none => drawPageRegions ctx p rest st
    | some (some ts) =>
      match drawText ctx rname layout ts p.page_number p.spread_side p.slug st with
      | Except.error e => Except.error e
      | Except.ok st2 => drawPageRegions ctx p rest st2

/-- The background of one page (`_draw_background`): the placeholder
when the image file is absent, a spread-clipped image for spreads, a
cover-fit image otherwise. -/
def backgroundOps (p : PageSpec) (hasImage : Bool) : List ROp :=
  if ¬ hasImage then [ROp.rectWhite, ROp.diagLine, ROp.diagLine]
  else if p.kind = "spread" then [ROp.spreadImage p.image_path p.spread_side]
  else [ROp.image p.image_path]

/-- `BookBuilder._draw_page`: background, then each configured region's
text, then `showPage`. -/
def drawPage (ctx : BCtx) (p : PageSpec) (hasImage : Bool)
    (st : BState) : Except PyExn BState :=
  match drawPageRegions ctx p ctx.regions
      { st with ops := st.ops ++ backgroundOps p hasImage } with
  | Except.error e => Except.error e
  | Except.ok st2 => Except.ok { st2 with ops := st2.ops ++ [ROp.showPage] }

/-- One iteration of the page loop in `BookBuilder.build` (lines
244-251): record a missing image in the report (`setdefault`, keyed by
slug), draw the page, and bump the page counters. -/
def buildStep (ctx : BCtx) (st : BState) (p : PageSpec) :
    Except PyExn BState :=
  match drawPage ctx p (pathExists ctx.imgs p.image_path)
      (if pathExists ctx.imgs p.image_path then st
        else { st with missing := setdefault st.missing p.slug p.image_path })
      with
  | Except.error e => Except.error e
  | Except.ok st2 =>
    Except.ok
      { st2 with
        total := st2.total + 1
        withArt := st2.withArt +
          (if pathExists ctx.imgs p.image_path then 1 else 0) }

/-- The full page loop of `BookBuilder.build`. -/
def buildFold (ctx : BCtx) : BState → List PageSpec → Except PyExn BState
  | st, [] => Except.ok st
  | st, p :: ps =>
    match buildStep ctx st p with
    | Except.error e => Except.error e
    | Except.ok st2 => buildFold ctx st2 ps

/-- Is a build result a success? -/
def isOkE {α : Type} : Except PyExn α → Bool
  | Except.ok _ => true
  | Except.error _ => false

/-! ## Helper lemmas about the value model -/

theorem assocGet_mem {α : Type} {l : List (String × α)} {k : String} {v : α}
    (h : assocGet l k = some v) : (k, v) ∈ l := by
  induction l with
  | nil => simp [assocGet] at h
  | cons p rest ih =>
    obtain ⟨k0, v0⟩ := p
    by_cases hk : k0 = k
    · subst hk
      simp [assocGet] at h
      subst h
      exact List.mem_cons_self _ _
    · simp [assocGet, hk] at h
      exact List.mem_cons_of_mem _ (ih h)

theorem libFreeL_mem {xs : List Value} {x : Value}
    (hall : libFreeL xs = true) (hx : x ∈ xs) : libFree x = true := by
  induction xs with
  | nil => cases hx
  | cons a as ih =>
    rw [libFreeL, Bool.and_eq_true] at hall
    rcases List.mem_cons.mp hx with h | h
    · subst h; exact hall.1
    · exact ih hall.2 h

theorem libFreeD_mem {d : List (String × Value)} {k : String} {v : Value}
    (hall : libFreeD d = true) (hv : (k, v) ∈ d) : libFree v = true := by
  induction d with
  | nil => cases hv
  | cons p rest ih =>
    obtain ⟨k0, v0⟩ := p
    rw [libFreeD, Bool.and_eq_true] at hall
    rcases List.mem_cons.mp hv with h | h
    · cases h; exact hall.1
    · exact ih hall.2 h

theorem noListD_mem {d : List (String × Value)} {k : String} {v : Value}
    (hall : noListD d = true) (hv : (k, v) ∈ d) : noList v = true := by
  induction d with
  | nil => cases hv
  | cons p rest ih =>
    obtain ⟨k0, v0⟩ := p
    rw [noListD, Bool.and_eq_true] at hall
    rcases List.mem_cons.mp hv with h | h
    · cases h; exact hall.1
    · exact ih hall.2 h

theorem vsize_pos (v : Value) : 1 ≤ vsize v := by
  cases v <;> simp [vsize]

theorem vsizeL_mem {xs : List Value} {x : Value} (hx : x ∈ xs) :
    vsize x ≤ vsizeL xs := by
  induction xs with
  | nil => cases hx
  | cons a as ih =>
    rcases List.mem_cons.mp hx with h | h
    · subst h; rw [vsizeL]; omega
    · have := ih h; rw [vsizeL]; omega

theorem vsizeD_mem {d : List (String × Value)} {k : String} {v : Value}
    (hv : (k, v) ∈ d) : vsize v ≤ vsizeD d := by
  induction d with
  | nil => cases hv
  | cons p rest ih =>
    obtain ⟨k0, v0⟩ := p
    rcases List.mem_cons.mp hv with h | h
    · cases h; rw [vsizeD]; omega
    · have := ih h; rw [vsizeD]; omega

theorem vsize_mem_list {xs : List Value} {x : Value} (hx : x ∈ xs) :
    vsize x < vsize (.vlist xs) := by
  have := vsizeL_mem hx
  rw [vsize]; omega

theorem vsize_mem_dict {d : List (String × Value)} {k : String} {v : Value}
    (hv : (k, v) ∈ d) : vsize v < vsize (.vdict d) := by
  have := vsizeD_mem hv
  rw [vsize]; omega

theorem nthD_mem {xs : List Value} {i : Nat} (h : i < xs.length) :
    nthD xs i ∈ xs := by
  induction xs generalizing i with
  | nil => simp at h
  | cons a as ih =>
    cases i with
    | zero => simp [nthD]
    | succ n =>
      simp only [List.length_cons, Nat.succ_lt_succ_iff] at h
      exact List.mem_cons_of_mem _ (ih h)

theorem lastD_mem {xs : List Value} (h : xs ≠ []) : lastD xs ∈ xs := by
  induction xs with
  | nil => exact absurd rfl h
  | cons a as ih =>
    cases as with
    | nil => simp [lastD]
    | cons b bs => exact List.mem_cons_of_mem _ (ih (by simp))

theorem nthD_len_sub_one {xs : List Value} (h : xs ≠ []) :
    nthD xs (xs.length - 1) = lastD xs := by
  induction xs with
  | nil => exact absurd rfl h
  | cons a as ih =>
    cases as with
    | nil => rfl
    | cons b bs =>
      have : (a :: b :: bs).length - 1 = (b :: bs).length - 1 + 1 := by
        simp
      rw [this, lastD, nthD, ih (by simp)]

theorem pyStartswith_lib_append (k : String) :
    pyStartswith ("@library:" ++ k) "@library" = true := by
  have h : ("@library:" ++ k).data = "@library:".data ++ k.data := rfl
  simp [pyStartswith, h, isPrefixL]

theorem partTail_lib_append (k : String) : partTail ("@library:" ++ k) = k := by
  have h : ("@library:" ++ k).data = "@library:".data ++ k.data := rfl
  simp [partTail, h, afterColon]

/-! ## C5: recto/verso inner/outer inset resolution -/

/-- C5: for a region with `inner=X` and `outer=Y` configured, the
resolved horizontal insets of `_draw_text` are `left=X, right=Y` on a
recto (odd-numbered) page and `left=Y, right=X` on a verso
(even-numbered) page; with neither configured, the configured
left/right insets are used unchanged. -/
theorem c5_inner_outer_parity (ins : Insets) (pn : Nat) :
    (∀ X Y : ℚ, ins.inner = some X → ins.outer = some Y →
      resolvedInsets ins pn = if pn % 2 = 1 then (X, Y) else (Y, X)) ∧
    (ins.inner = none → ins.outer = none →
      resolvedInsets ins pn = (ins.left.getD 0, ins.right.getD 0)) := by
  constructor
  · intro X Y hin hout
    by_cases hp : pn % 2 = 1 <;>
      simp [resolvedInsets, hin, hout, hp]
  · intro hin hout
    simp [resolvedInsets, hin, hout]

/-- Witness for C5 at a concrete inset configuration: `inner=10`,
`outer=20`, page 3 (recto) resolves to `(10, 20)` and page 4 (verso) to
`(20, 10)`; without `inner`/`outer` the configured `left=1`, `right=2`
pass through. -/
theorem c5_witness :
    resolvedInsets ⟨some 1, some 2, none, none, some 10, some 20, none⟩ 3 =
      (10, 20) ∧
    resolvedInsets ⟨some 1, some 2, none, none, some 10, some 20, none⟩ 4 =
      (20, 10) ∧
    resolvedInsets ⟨some 1, some 2, none, none, none, none, none⟩ 7 = (1, 2) := by
  refine ⟨?_, ?_, ?_⟩
  · have h := (c5_inner_outer_parity
      ⟨some 1, some 2, none, none, some 10, some 20, none⟩ 3).1 10 20 rfl rfl
    simpa using h
  · have h := (c5_inner_outer_parity
      ⟨some 1, some 2, none, none, some 10, some 20, none⟩ 4).1 10 20 rfl rfl
    simpa using h
  · exact (c5_inner_outer_parity
      ⟨some 1, some 2, none, none, none, none, none⟩ 7).2 rfl rfl

/-! ## C7: bare scalar strings, file mode versus inline mode -/

/-- C7: a bare scalar string that does not start with `"@library"`
resolves to a file-mode `TextSource` carrying the string when
`prefer_inline` is false (inline-config pages), and to an inline-mode
`TextSource` carrying the same string when `prefer_inline` is true
(text-library pages). -/
theorem c7_bare_string_modes (s : String)
    (h : pyStartswith s "@library" = false) (n : Nat)
    (lib : List (String × Value)) (index : Nat) (slug region : String)
    (side : Option String) :
    coerceF (n + 1) lib (.vstr s) index slug region side false =
      some (Except.ok (some ⟨"file", s⟩)) ∧
    coerceF (n + 1) lib (.vstr s) index slug region side true =
      some (Except.ok (some ⟨"inline", s⟩)) := by
  constructor <;> simp [coerceF, valueAction, h]

/-- Witness for C7 at the spec's round-trip value `"hello.txt"`. -/
theorem c7_witness :
    pyStartswith "hello.txt" "@library" = false ∧
    coerceF 1 [] (.vstr "hello.txt") 0 "p1" "top" none false =
      some (Except.ok (some ⟨"file", "hello.txt"⟩)) ∧
    coerceF 1 [] (.vstr "hello.txt") 0 "p1" "top" none true =
      some (Except.ok (some ⟨"inline", "hello.txt"⟩)) :=
  ⟨by decide,
   (c7_bare_string_modes "hello.txt" (by decide) 0 [] 0 "p1" "top" none).1,
   (c7_bare_string_modes "hello.txt" (by decide) 0 [] 0 "p1" "top" none).2⟩

/-! ## C6: `@library:key` and `{library: key}` coincide -/

/-- The two library syntaxes dispatch to the same library call. -/
theorem valueAction_library_syntaxes (k : String) (index : Nat)
    (slug : String) (side : Option String) (prefer : Bool) :
    valueAction (.vstr ("@library:" ++ k)) index slug side prefer =
      valueAction (.vdict [("library", .vstr k)]) index slug side prefer := by
  simp only [valueAction, dictAction, dictFile, dictLibrary,
    pyStartswith_lib_append, if_true, assocGet]
  by_cases hk : k = ""
  · subst hk
    have h0 : partTail "@library:" = "" := by decide
    simp [partTail_lib_append, h0, pyTruthy, pyStr]
  · simp [partTail_lib_append, pyTruthy, pyStr, hk]

/-- C6: resolving the scalar reference `"@library:k"` produces exactly
the same outcome (including fuel behaviour and exceptions) as resolving
the mapping `{library: k}`, for every library, index, slug, region,
spread side and `prefer_inline` flag; both fall back to the page slug
when the key part is empty and delegate to `_text_from_library`, which
recurses with `prefer_inline` forced to true. -/
theorem c6_library_syntaxes_equal (n : Nat) (lib : List (String × Value))
    (k : String) (index : Nat) (slug region : String)
    (side : Option String) (prefer : Bool) :
    coerceF n lib (.vstr ("@library:" ++ k)) index slug region side prefer =
      coerceF n lib (.vdict [("library", .vstr k)]) index slug region side
        prefer := by
  cases n with
  | zero => rfl
  | succ n =>
    simp only [coerceF, valueAction_library_syntaxes]

/-! ## C9: malformed mappings silently resolve to no text -/

/-- C9: a mapping with none of the recognized mode keys (`inline`,
`file`, `library`, `left`, `right`) resolves to "no text" without
raising; and a directional mapping (containing `left` or `right`) whose
spread-side entry and `default` entry both fail to yield a candidate
also resolves to "no text" without raising. -/
theorem c9_malformed_mapping_no_text (d : List (String × Value)) (n : Nat)
    (lib : List (String × Value)) (index : Nat) (slug region : String)
    (side : Option String) (prefer : Bool) :
    (assocGet d "inline" = none → assocGet d "file" = none →
      assocGet d "library" = none → assocGet d "left" = none →
      assocGet d "right" = none →
      coerceF (n + 1) lib (.vdict d) index slug region side prefer =
        some (Except.ok none)) ∧
    (assocGet d "inline" = none → assocGet d "file" = none →
      assocGet d "library" = none →
      ((assocGet d "left").isSome ∨ (assocGet d "right").isSome) →
      (∀ s, side = some s → s ≠ "" →
        assocGet d s = none ∨ assocGet d s = some .vnone) →
      (assocGet d "default" = none ∨ assocGet d "default" = some .vnone) →
      coerceF (n + 1) lib (.vdict d) index slug region side prefer =
        some (Except.ok none)) := by
  constructor
  · intro h1 h2 h3 h4 h5
    simp [coerceF, valueAction, dictAction, dictFile, dictLibrary,
      dictDirectional, h1, h2, h3, h4, h5]
  · intro h1 h2 h3 hlr hside hdef
    have hd : dfltOf d = .vnone := by
      rcases hdef with h | h <;> simp [dfltOf, h]
    have hcond : ((assocGet d "left").isSome || (assocGet d "right").isSome)
        = true := by
      rcases hlr with h | h <;> simp [h]
    have hcand : dictCandidate d side = .vnone := by
      unfold dictCandidate
      cases side with
      | none => exact hd
      | some s =>
        by_cases hs : s ≠ ""
        · rcases hside s rfl hs with h | h <;> simp [hs, h, hd]
        · simp [hs, hd]
    simp [coerceF, valueAction, dictAction, dictFile, dictLibrary,
      dictDirectional, candAction, h1, h2, h3, hcond, hcand]

/-- Witness for C9: a mapping with only an unrecognized key, and a
directional mapping with a `left` entry but no matching side and no
default, both resolve to no text. -/
theorem c9_witness :
    coerceF 1 [] (.vdict [("foo", .vstr "x")]) 0 "p" "top" none false =
      some (Except.ok none) ∧
    coerceF 1 [] (.vdict [("left", .vstr "hi")]) 0 "p" "top" none false =
      some (Except.ok none) :=
  ⟨(c9_malformed_mapping_no_text [("foo", .vstr "x")] 0 [] 0 "p" "top" none
      false).1 rfl rfl rfl rfl rfl,
   (c9_malformed_mapping_no_text [("left", .vstr "hi")] 0 [] 0 "p" "top" none
      false).2 rfl rfl rfl (Or.inl rfl)
      (fun s hs _ => by cases hs) (Or.inl rfl)⟩

/-! ## C1: the list clamp law -/

/-- C1 counterexample: clamping selects the last element but keeps the
original index for the recursive resolution, so a nested list resolves
differently under an out-of-range index (3) than under
`length - 1 = 0`: the inner list is index-selected with the outer
index. -/
theorem c1_counterexample :
    coerceF 5 [] (.vlist [.vlist [.vstr "a", .vstr "b"]]) 3 "s" "top" none
        true = some (Except.ok (some ⟨"inline", "b"⟩)) ∧
    coerceF 5 [] (.vlist [.vlist [.vstr "a", .vstr "b"]]) 0 "s" "top" none
        true = some (Except.ok (some ⟨"inline", "a"⟩)) ∧
    (some (Except.ok (some ⟨"inline", "b"⟩)) :
        Option (Except PyExn (Option TextSource))) ≠
      some (Except.ok (some ⟨"inline", "a"⟩)) :=
  ⟨rfl, rfl, by simp⟩

/-- Only the list branch of the dispatch reads the index. -/
theorem valueAction_index_indep {v : Value} (hn : noList v = true)
    (i j : Nat) (slug : String) (side : Option String) (p : Bool) :
    valueAction v i slug side p = valueAction v j slug side p := by
  cases v with
  | vlist xs => rw [noList] at hn; cases hn
  | vnone => rfl
  | vstr s => rfl
  | vint n => rfl
  | vbool b => rfl
  | vdict d => rfl

/-- Unfolding of the mapping dispatch when `inline` is present. -/
theorem dictAction_eq_inline (d : List (String × Value)) (slug : String)
    (side : Option String) (x : Value) (h : assocGet d "inline" = some x) :
    dictAction d slug side = .retSrc ⟨"inline", pyStr x⟩ := by
  unfold dictAction; rw [h]

/-- Unfolding of the mapping dispatch when `inline` is absent. -/
theorem dictAction_eq_file (d : List (String × Value)) (slug : String)
    (side : Option String) (h : assocGet d "inline" = none) :
    dictAction d slug side = dictFile d slug side := by
  unfold dictAction; rw [h]

/-- Unfolding of the `file` check when `file` is present. -/
theorem dictFile_eq_src (d : List (String × Value)) (slug : String)
    (side : Option String) (x : Value) (h : assocGet d "file" = some x) :
    dictFile d slug side = .retSrc ⟨"file", pyStr x⟩ := by
  unfold dictFile; rw [h]

/-- Unfolding of the `file` check when `file` is absent. -/
theorem dictFile_eq_library (d : List (String × Value)) (slug : String)
    (side : Option String) (h : assocGet d "file" = none) :
    dictFile d slug side = dictLibrary d slug side := by
  unfold dictFile; rw [h]

/-- Unfolding of the `library` check when `library` is present. -/
theorem dictLibrary_eq_call (d : List (String × Value)) (slug : String)
    (side : Option String) (x : Value) (h : assocGet d "library" = some x) :
    dictLibrary d slug side =
      .callLib (if pyTruthy x then pyStr x else slug) := by
  unfold dictLibrary; rw [h]

/-- Unfolding of the `library` check when `library` is absent. -/
theorem dictLibrary_eq_directional (d : List (String × Value)) (slug : String)
    (side : Option String) (h : assocGet d "library" = none) :
    dictLibrary d slug side = dictDirectional d side := by
  unfold dictLibrary; rw [h]

/-- Unfolding of the directional branch when `left` or `right` exists. -/
theorem dictDirectional_eq_cand (d : List (String × Value))
    (side : Option String)
    (h : ((assocGet d "left").isSome || (assocGet d "right").isSome) = true) :
    dictDirectional d side = candAction (dictCandidate d side) := by
  unfold dictDirectional; rw [if_pos h]

/-- Unfolding of the directional branch when neither key exists. -/
theorem dictDirectional_eq_none (d : List (String × Value))
    (side : Option String)
    (h : ¬ ((assocGet d "left").isSome || (assocGet d "right").isSome)
      = true) :
    dictDirectional d side = .retNone := by
  unfold dictDirectional; rw [if_neg h]

/-- The candidate guard never calls into the library. -/
theorem candAction_ne_callLib (c : Value) (key : String) :
    candAction c ≠ .callLib key := by
  cases c <;> simp [candAction]

/-- A recursing candidate guard carries a non-`None` candidate. -/
theorem candAction_recurse {c w : Value} (h : candAction c = .recurse w) :
    c = w ∧ w ≠ .vnone := by
  cases c <;> simp [candAction] at h <;> exact ⟨h, by rw [← h]; simp⟩

/-- A non-`None` value produced by the `default` fallback is a value of
the mapping. -/
theorem dfltOf_some {d : List (String × Value)} {w : Value}
    (hw : dfltOf d = w) (hne : w ≠ .vnone) :
    assocGet d "default" = some w := by
  unfold dfltOf at hw
  cases hd : assocGet d "default" with
  | none =>
    simp [hd] at hw
    exact absurd hw.symm hne
  | some c =>
    simp [hd] at hw
    rw [hw]

/-- A non-`None` directional candidate is a value of the mapping. -/
theorem dictCandidate_sub {d : List (String × Value)} {side : Option String}
    {w : Value} (hw : dictCandidate d side = w) (hne : w ≠ .vnone) :
    ∃ key, assocGet d key = some w := by
  unfold dictCandidate at hw
  cases side with
  | none => exact ⟨"default", dfltOf_some hw hne⟩
  | some s =>
    by_cases hs : s ≠ ""
    · cases hds : assocGet d s with
      | some c =>
        simp [hs, hds] at hw
        exact ⟨s, by rw [hds, hw]⟩
      | none =>
        simp [hs, hds] at hw
        exact ⟨"default", dfltOf_some hw hne⟩
    · simp [hs] at hw
      exact ⟨"default", dfltOf_some hw hne⟩

/-- A recursive step out of the mapping dispatch goes into one of the
mapping's values. -/
theorem dictAction_recurse {d : List (String × Value)} {slug : String}
    {side : Option String} {w : Value}
    (h : dictAction d slug side = .recurse w) :
    ∃ key, assocGet d key = some w := by
  cases hin : assocGet d "inline" with
  | some x => rw [dictAction_eq_inline d slug side x hin] at h; simp at h
  | none =>
  rw [dictAction_eq_file d slug side hin] at h
  cases hfi : assocGet d "file" with
  | some x => rw [dictFile_eq_src d slug side x hfi] at h; simp at h
  | none =>
  rw [dictFile_eq_library d slug side hfi] at h
  cases hlb : assocGet d "library" with
  | some x => rw [dictLibrary_eq_call d slug side x hlb] at h; simp at h
  | none =>
  rw [dictLibrary_eq_directional d slug side hlb] at h
  by_cases hlr : ((assocGet d "left").isSome || (assocGet d "right").isSome)
      = true
  · rw [dictDirectional_eq_cand d side hlr] at h
    obtain ⟨hcw, hne⟩ := candAction_recurse h
    exact dictCandidate_sub hcw hne
  · rw [dictDirectional_eq_none d side hlr] at h
    simp at h

/-- A recursive step out of a mapping value goes into one of its
values. -/
theorem vdict_recurse_sub {d : List (String × Value)} {i : Nat}
    {slug : String} {side : Option String} {p : Bool} {w : Value}
    (h : valueAction (.vdict d) i slug side p = .recurse w) :
    ∃ key, assocGet d key = some w :=
  dictAction_recurse h

/-- A recursive step out of a list goes into one of its elements. -/
theorem vlist_recurse_mem {xs : List Value} {i : Nat} {slug : String}
    {side : Option String} {p : Bool} {w : Value}
    (h : valueAction (.vlist xs) i slug side p = .recurse w) : w ∈ xs := by
  simp only [valueAction] at h
  by_cases he : xs.isEmpty
  · rw [if_pos he] at h; cases h
  · rw [if_neg he] at h
    have hne : xs ≠ [] := by
      intro hx; subst hx; exact he rfl
    cases h
    by_cases hi : i < xs.length
    · rw [if_pos hi]; exact nthD_mem hi
    · rw [if_neg hi]; exact lastD_mem hne

/-- Without a `library` key, the mapping dispatch never calls into the
library. -/
theorem dictAction_no_callLib {d : List (String × Value)} {slug : String}
    {side : Option String} {key : String}
    (hlib : assocGet d "library" = none) :
    dictAction d slug side ≠ .callLib key := by
  cases hin : assocGet d "inline" with
  | some x => rw [dictAction_eq_inline d slug side x hin]; simp
  | none =>
  rw [dictAction_eq_file d slug side hin]
  cases hfi : assocGet d "file" with
  | some x => rw [dictFile_eq_src d slug side x hfi]; simp
  | none =>
  rw [dictFile_eq_library d slug side hfi,
    dictLibrary_eq_directional d slug side hlib]
  by_cases hlr : ((assocGet d "left").isSome || (assocGet d "right").isSome)
      = true
  · rw [dictDirectional_eq_cand d side hlr]
    exact candAction_ne_callLib _ _
  · rw [dictDirectional_eq_none d side hlr]
    simp

/-- A library-reference-free value never dispatches into the library. -/
theorem libFree_no_callLib {v : Value} {i : Nat} {slug : String}
    {side : Option String} {p : Bool} {key : String}
    (hl : libFree v = true) :
    valueAction v i slug side p ≠ .callLib key := by
  cases v with
  | vnone => simp [valueAction]
  | vint n => simp [valueAction]
  | vbool b => simp [valueAction]
  | vlist xs =>
    simp only [valueAction]
    by_cases he : xs.isEmpty <;> simp [he]
  | vstr s =>
    have hsw : pyStartswith s "@library" = false := by
      rw [libFree] at hl
      simpa using hl
    by_cases hp : p = true <;> simp [valueAction, hsw, hp]
  | vdict d =>
    rw [libFree, Bool.and_eq_true, Option.isNone_iff_eq_none] at hl
    exact dictAction_no_callLib hl.1

/-- `libFree` is preserved along a recursive dispatch step. -/
theorem recurse_libFree {v : Value} {i : Nat} {slug : String}
    {side : Option String} {p : Bool} {w : Value} (hl : libFree v = true)
    (h : valueAction v i slug side p = .recurse w) : libFree w = true := by
  cases v with
  | vnone => cases h
  | vint n => cases h
  | vbool b => cases h
  | vstr s =>
    revert h
    simp only [valueAction]
    by_cases hsw : pyStartswith s "@library" = true <;>
      by_cases hp : p = true <;> simp [hsw, hp]
  | vlist xs =>
    rw [libFree] at hl
    exact libFreeL_mem hl (vlist_recurse_mem h)
  | vdict d =>
    rw [libFree, Bool.and_eq_true] at hl
    obtain ⟨key, hkey⟩ := vdict_recurse_sub h
    exact libFreeD_mem hl.2 (assocGet_mem hkey)

/-- `noList` is preserved along a recursive dispatch step. -/
theorem recurse_noList {v : Value} {i : Nat} {slug : String}
    {side : Option String} {p : Bool} {w : Value} (hn : noList v = true)
    (h : valueAction v i slug side p = .recurse w) : noList w = true := by
  cases v with
  | vnone => cases h
  | vint n => cases h
  | vbool b => cases h
  | vstr s =>
    revert h
    simp only [valueAction]
    by_cases hsw : pyStartswith s "@library" = true <;>
      by_cases hp : p = true <;> simp [hsw, hp]
  | vlist xs => rw [noList] at hn; cases hn
  | vdict d =>
    rw [noList] at hn
    obtain ⟨key, hkey⟩ := vdict_recurse_sub h
    exact noListD_mem hn (assocGet_mem hkey)

/-- Coercion of a value with no nested list and no library reference
does not depend on the sub-page index, at every fuel level. -/
theorem coerceF_index_indep (n : Nat) (lib : List (String × Value))
    (v : Value) (i j : Nat) (slug region : String) (side : Option String)
    (p : Bool) (hn : noList v = true) (hl : libFree v = true) :
    coerceF n lib v i slug region side p =
      coerceF n lib v j slug region side p := by
  induction n generalizing v with
  | zero => rfl
  | succ n ih =>
    have hva := valueAction_index_indep hn i j slug side p
    simp only [coerceF, hva]
    cases hact : valueAction v j slug side p with
    | retNone => rfl
    | retSrc ts => rfl
    | recurse w => exact ih w (recurse_noList hn hact) (recurse_libFree hl hact)
    | callLib key => exact absurd hact (libFree_no_callLib hl)

/-- C1 (amended): for a non-empty list reference, an index at or beyond
the list length selects the same (last) element as `index = length - 1`;
the resolution results coincide at every fuel level provided the last
element contains no nested list and no library reference (both of which
would re-use the original, unclamped index). -/
theorem c1_amended_clamp (lib : List (String × Value)) (xs : List Value)
    (index : Nat) (slug region : String) (side : Option String)
    (prefer : Bool) (hne : xs ≠ []) (hidx : xs.length ≤ index)
    (hnl : noList (lastD xs) = true) (hlf : libFree (lastD xs) = true) :
    ∀ n, coerceF n lib (.vlist xs) index slug region side prefer =
      coerceF n lib (.vlist xs) (xs.length - 1) slug region side prefer := by
  intro n
  cases n with
  | zero => rfl
  | succ n =>
    have h1 : xs.isEmpty = false := by
      cases xs with
      | nil => exact absurd rfl hne
      | cons a as => rfl
    have hA : valueAction (.vlist xs) index slug side prefer =
        .recurse (lastD xs) := by
      have h2 : ¬ index < xs.length := by omega
      simp [valueAction, h1, h2]
    have hB : valueAction (.vlist xs) (xs.length - 1) slug side prefer =
        .recurse (lastD xs) := by
      have hpos : 0 < xs.length := List.length_pos.mpr hne
      have h2 : xs.length - 1 < xs.length := by omega
      simp [valueAction, h1, h2, nthD_len_sub_one hne]
    simp only [coerceF, hA, hB]
    exact coerceF_index_indep n lib (lastD xs) index (xs.length - 1) slug
      region side prefer hnl hlf

/-- Witness for the amended C1: a one-element list of a bare string,
index 2 beyond the length, resolves as index 0 does. -/
theorem c1_witness :
    ([Value.vstr "a"] : List Value) ≠ [] ∧
    ([Value.vstr "a"] : List Value).length ≤ 2 ∧
    noList (lastD [Value.vstr "a"]) = true ∧
    libFree (lastD [Value.vstr "a"]) = true ∧
    coerceF 3 [] (.vlist [.vstr "a"]) 2 "s" "top" none true =
      coerceF 3 [] (.vlist [.vstr "a"])
        (([Value.vstr "a"] : List Value).length - 1) "s" "top" none true :=
  ⟨List.cons_ne_nil _ _, by decide, rfl, rfl,
   c1_amended_clamp [] [.vstr "a"] 2 "s" "top" none true
     (List.cons_ne_nil _ _) (by decide) rfl rfl 3⟩

/-! ## C2: termination of the mutually recursive resolver -/

/-- A text library whose single entry refers back to itself through
`@library:a`. -/
def cyclicLib : List (String × Value) :=
  [("a", .vdict [("top", .vstr "@library:a")])]

/-- On the self-referential library, the resolver makes no progress: at
every fuel level the computation is still running.  (In CPython the
call recurses without bound until `RecursionError`.) -/
theorem cyclicLib_diverges :
    ∀ n, coerceF n cyclicLib (.vstr "@library:a") 0 "a" "top" none true =
      none := by
  have key : ∀ n,
      coerceF n cyclicLib (.vstr "@library:a") 0 "a" "top" none true = none ∧
      coerceF (n + 1) cyclicLib (.vstr "@library:a") 0 "a" "top" none true =
        none := by
    intro n
    induction n with
    | zero => exact ⟨rfl, rfl⟩
    | succ n ih =>
      refine ⟨ih.2, ?_⟩
      have hstep :
          coerceF (n + 2) cyclicLib (.vstr "@library:a") 0 "a" "top" none
            true =
          coerceF n cyclicLib (.vstr "@library:a") 0 "a" "top" none true :=
        rfl
      rw [hstep]
      exact ih.1
  exact fun n => (key n).1

/-- C2 counterexample: the resolution of `"@library:a"` against
`cyclicLib` never reaches a result — the mutual recursion of
`_coerce_text_source` and `_text_from_library` is not terminating on
every input. -/
theorem c2_counterexample :
    ¬ ∃ n r, coerceF n cyclicLib (.vstr "@library:a") 0 "a" "top" none true =
      some r := by
  rintro ⟨n, r, h⟩
  rw [cyclicLib_diverges n] at h
  exact Option.noConfusion h

/-- A recursive dispatch step strictly decreases the value size. -/
theorem recurse_vsize {v : Value} {i : Nat} {slug : String}
    {side : Option String} {p : Bool} {w : Value}
    (h : valueAction v i slug side p = .recurse w) : vsize w < vsize v := by
  cases v with
  | vnone => cases h
  | vint n => cases h
  | vbool b => cases h
  | vstr s =>
    revert h
    simp only [valueAction]
    by_cases hsw : pyStartswith s "@library" = true <;>
      by_cases hp : p = true <;> simp [hsw, hp]
  | vlist xs => exact vsize_mem_list (vlist_recurse_mem h)
  | vdict d =>
    obtain ⟨key, hk⟩ := vdict_recurse_sub h
    exact vsize_mem_dict (assocGet_mem hk)

/-- The region value pulled out of a library-reference-free entry is
itself library-reference-free. -/
theorem libFree_entry_region {d : List (String × Value)} {region : String}
    (h : libFree (.vdict d) = true) :
    libFree ((assocGet d region).getD .vnone) = true := by
  rw [libFree, Bool.and_eq_true] at h
  cases hr : assocGet d region with
  | none => simp [hr, libFree]
  | some w =>
    simp [hr]
    exact libFreeD_mem h.2 (assocGet_mem hr)

/-- When the library dispatch recurses into an entry and all entries are
library-reference-free, the region value it recurses into is
library-reference-free. -/
theorem libAction_lgo_libFree {lib : List (String × Value)}
    {key region : String} {w : Value} (hfree : entriesLibFree lib = true)
    (h : libAction lib key region = .lgo w) : libFree w = true := by
  unfold libAction at h
  by_cases he : lib.isEmpty = true
  · rw [if_pos he] at h; cases h
  · rw [if_neg he] at h
    cases hk : assocGet lib key with
    | none => simp [hk] at h
    | some e =>
      have hfe : libFree e = true :=
        libFreeD_mem hfree (assocGet_mem hk)
      by_cases ht : pyTruthy e = true
      · cases e with
        | vdict dd =>
          simp [hk, ht] at h
          rw [← h]
          exact libFree_entry_region hfe
        | vnone => simp [hk, ht] at h
        | vstr s => simp [hk, ht] at h
        | vint m => simp [hk, ht] at h
        | vbool b => simp [hk, ht] at h
        | vlist xs => simp [hk, ht] at h
      · simp [hk, ht] at h

/-- Library-reference-free values resolve in finitely many steps: the
recursion is purely structural. -/
theorem coerce_term_of_libFree (lib : List (String × Value)) :
    ∀ N v, vsize v ≤ N → libFree v = true →
    ∀ (index : Nat) (slug region : String) (side : Option String)
      (prefer : Bool),
    ∃ n r, coerceF n lib v index slug region side prefer = some r := by
  intro N
  induction N with
  | zero =>
    intro v hv hl index slug region side prefer
    exfalso
    have := vsize_pos v
    omega
  | succ N ih =>
    intro v hv hl index slug region side prefer
    cases hact : valueAction v index slug side prefer with
    | retNone => exact ⟨1, Except.ok none, by simp [coerceF, hact]⟩
    | retSrc ts => exact ⟨1, Except.ok (some ts), by simp [coerceF, hact]⟩
    | callLib key => exact absurd hact (libFree_no_callLib hl)
    | recurse w =>
      have hsub := recurse_vsize hact
      obtain ⟨n, r, hr⟩ := ih w (by omega) (recurse_libFree hl hact) index
        slug region side prefer
      exact ⟨n + 1, r, by simp [coerceF, hact]; exact hr⟩

/-- With library-reference-free entries, every library lookup resolves
in finitely many steps. -/
theorem tfl_term (lib : List (String × Value))
    (hfree : entriesLibFree lib = true) (key region : String) (index : Nat)
    (side : Option String) :
    ∃ n r, tflF n lib key region index side = some r := by
  cases hact : libAction lib key region with
  | lretNone => exact ⟨1, Except.ok none, by simp [tflF, hact]⟩
  | lraise => exact ⟨1, Except.error PyExn.attrError, by simp [tflF, hact]⟩
  | lgo w =>
    obtain ⟨n, r, hr⟩ := coerce_term_of_libFree lib (vsize w) w le_rfl
      (libAction_lgo_libFree hfree hact) index key region side true
    exact ⟨n + 1, r, by simp [tflF, hact]; exact hr⟩

/-- With library-reference-free entries, every coercion resolves in
finitely many steps: at most one library jump lands on an entry value,
after which the recursion is structural. -/
theorem coerce_term (lib : List (String × Value))
    (hfree : entriesLibFree lib = true) :
    ∀ N v, vsize v ≤ N →
    ∀ (index : Nat) (slug region : String) (side : Option String)
      (prefer : Bool),
    ∃ n r, coerceF n lib v index slug region side prefer = some r := by
  intro N
  induction N with
  | zero =>
    intro v hv index slug region side prefer
    exfalso
    have := vsize_pos v
    omega
  | succ N ih =>
    intro v hv index slug region side prefer
    cases hact : valueAction v index slug side prefer with
    | retNone => exact ⟨1, Except.ok none, by simp [coerceF, hact]⟩
    | retSrc ts => exact ⟨1, Except.ok (some ts), by simp [coerceF, hact]⟩
    | callLib key =>
      obtain ⟨n, r, hr⟩ := tfl_term lib hfree key region index side
      exact ⟨n + 1, r, by simp [coerceF, hact]; exact hr⟩
    | recurse w =>
      have hsub := recurse_vsize hact
      obtain ⟨n, r, hr⟩ := ih w (by omega) index slug region side prefer
      exact ⟨n + 1, r, by simp [coerceF, hact]; exact hr⟩

/-- C2 (amended): the mutually recursive resolution of
`_coerce_text_source` and `_text_from_library` reaches a result in
finitely many steps for every raw reference, index, slug, region, spread
side and `prefer_inline` flag, provided the loaded library's entries
contain no library references (no `"@library..."` strings and no
`library`-keyed mappings); a self-referential entry such as `cyclicLib`
makes the recursion exceed every bound. -/
theorem c2_amended_termination (lib : List (String × Value))
    (hfree : entriesLibFree lib = true) :
    (∀ (v : Value) (index : Nat) (slug region : String)
      (side : Option String) (prefer : Bool),
      ∃ n r, coerceF n lib v index slug region side prefer = some r) ∧
    (∀ (key region : String) (index : Nat) (side : Option String),
      ∃ n r, tflF n lib key region index side = some r) :=
  ⟨fun v index slug region side prefer =>
    coerce_term lib hfree (vsize v) v le_rfl index slug region side prefer,
   fun key region index side => tfl_term lib hfree key region index side⟩

/-- Witness for the amended C2 on a concrete library-reference-free
library. -/
theorem c2_witness :
    entriesLibFree [("a", Value.vdict [("top", Value.vstr "hi")])] = true ∧
    (∃ n r, coerceF n [("a", Value.vdict [("top", Value.vstr "hi")])]
      (.vstr "@library:a") 0 "p" "top" none true = some r) ∧
    (∃ n r, tflF n [("a", Value.vdict [("top", Value.vstr "hi")])] "a" "top"
      0 none = some r) :=
  ⟨by decide,
   (c2_amended_termination _ (by decide)).1 (.vstr "@library:a") 0 "p" "top"
     none true,
   (c2_amended_termination _ (by decide)).2 "a" "top" 0 none⟩

/-! ## Fuel monotonicity and error classification for the expander -/

theorem coerceF_tflF_mono : ∀ n : Nat,
    (∀ lib (v : Value) index slug region side prefer r,
      coerceF n lib v index slug region side prefer = some r →
      coerceF (n + 1) lib v index slug region side prefer = some r) ∧
    (∀ lib (key region : String) index side r,
      tflF n lib key region index side = some r →
      tflF (n + 1) lib key region index side = some r) := by
  intro n
  induction n with
  | zero =>
    constructor
    · intro lib v index slug region side prefer r h
      simp [coerceF] at h
    · intro lib key region index side r h
      simp [tflF] at h
  | succ n ih =>
    constructor
    · intro lib v index slug region side prefer r h
      cases hact : valueAction v index slug side prefer with
      | retNone => simp only [coerceF, hact] at h ⊢; exact h
      | retSrc ts => simp only [coerceF, hact] at h ⊢; exact h
      | recurse w =>
        simp only [coerceF, hact] at h ⊢
        exact ih.1 _ _ _ _ _ _ _ _ h
      | callLib key =>
        simp only [coerceF, hact] at h ⊢
        exact ih.2 _ _ _ _ _ _ h
    · intro lib key region index side r h
      cases hact : libAction lib key region with
      | lretNone => simp only [tflF, hact] at h ⊢; exact h
      | lraise => simp only [tflF, hact] at h ⊢; exact h
      | lgo w =>
        simp only [tflF, hact] at h ⊢
        exact ih.1 _ _ _ _ _ _ _ _ h

theorem coerceF_mono_le {n m : Nat} (hnm : n ≤ m) {lib : List (String × Value)}
    {v : Value} {index : Nat} {slug region : String} {side : Option String}
    {prefer : Bool} {r : Except PyExn (Option TextSource)}
    (h : coerceF n lib v index slug region side prefer = some r) :
    coerceF m lib v index slug region side prefer = some r := by
  induction m with
  | zero =>
    have h0 : n = 0 := by omega
    subst h0
    simp [coerceF] at h
  | succ m ih =>
    by_cases hc : n = m + 1
    · subst hc; exact h
    · exact (coerceF_tflF_mono m).1 _ _ _ _ _ _ _ _ (ih (by omega))

theorem tflF_mono_le {n m : Nat} (hnm : n ≤ m) {lib : List (String × Value)}
    {key region : String} {index : Nat} {side : Option String}
    {r : Except PyExn (Option TextSource)}
    (h : tflF n lib key region index side = some r) :
    tflF m lib key region index side = some r := by
  induction m with
  | zero =>
    have h0 : n = 0 := by omega
    subst h0
    simp [tflF] at h
  | succ m ih =>
    by_cases hc : n = m + 1
    · subst hc; exact h
    · exact (coerceF_tflF_mono m).2 _ _ _ _ _ _ (ih (by omega))

theorem resolveRefF_mono_le {n m : Nat} (hnm : n ≤ m)
    {lib : List (String × Value)} {ref : Value} {index : Nat}
    {slug region : String} {side : Option String} {prefer : Bool}
    {r : Except PyExn (Option TextSource)}
    (h : resolveRefF n lib ref index slug region side prefer = some r) :
    resolveRefF m lib ref index slug region side prefer = some r := by
  unfold resolveRefF at h ⊢
  cases hc : coerceF n lib ref index slug region side prefer with
  | none => simp [hc] at h
  | some e =>
    rw [coerceF_mono_le hnm hc]
    simp only [hc] at h
    cases e with
    | error ex => exact h
    | ok o =>
      cases o with
      | some ts => exact h
      | none =>
        cases ref with
        | vnone => exact tflF_mono_le hnm h
        | vstr s => exact h
        | vint k => exact h
        | vbool b => exact h
        | vlist xs => exact h
        | vdict d => exact h

theorem coerceF_tflF_no_valueError : ∀ n : Nat,
    (∀ lib (v : Value) index slug region side prefer e,
      coerceF n lib v index slug region side prefer =
        some (Except.error e) → e = PyExn.attrError) ∧
    (∀ lib (key region : String) index side e,
      tflF n lib key region index side = some (Except.error e) →
      e = PyExn.attrError) := by
  intro n
  induction n with
  | zero =>
    constructor
    · intro lib v index slug region side prefer e h
      simp [coerceF] at h
    · intro lib key region index side e h
      simp [tflF] at h
  | succ n ih =>
    constructor
    · intro lib v index slug region side prefer e h
      cases hact : valueAction v index slug side prefer with
      | retNone => simp only [coerceF, hact] at h; simp at h
      | retSrc ts => simp only [coerceF, hact] at h; simp at h
      | recurse w =>
        simp only [coerceF, hact] at h
        exact ih.1 _ _ _ _ _ _ _ _ h
      | callLib key =>
        simp only [coerceF, hact] at h
        exact ih.2 _ _ _ _ _ _ h
    · intro lib key region index side e h
      cases hact : libAction lib key region with
      | lretNone => simp only [tflF, hact] at h; simp at h
      | lraise =>
        simp only [tflF, hact] at h
        simp at h
        exact h.symm
      | lgo w =>
        simp only [tflF, hact] at h
        exact ih.1 _ _ _ _ _ _ _ _ h

theorem resolveRefF_no_valueError {n : Nat} {lib : List (String × Value)}
    {ref : Value} {index : Nat} {slug region : String} {side : Option String}
    {prefer : Bool} {e : PyExn}
    (h : resolveRefF n lib ref index slug region side prefer =
      some (Except.error e)) : e = PyExn.attrError := by
  unfold resolveRefF at h
  cases hc : coerceF n lib ref index slug region side prefer with
  | none => simp [hc] at h
  | some r =>
    simp only [hc] at h
    cases r with
    | error ex =>
      simp at h
      subst h
      exact (coerceF_tflF_no_valueError n).1 _ _ _ _ _ _ _ _ hc
    | ok o =>
      cases o with
      | some ts => simp at h
      | none =>
        cases ref with
        | vnone => exact (coerceF_tflF_no_valueError n).2 _ _ _ _ _ _ h
        | vstr s => simp at h
        | vint k => simp at h
        | vbool b => simp at h
        | vlist xs => simp at h
        | vdict d => simp at h

theorem resolveRegions_mono_le {n m : Nat} (hnm : n ≤ m) {ctx : Ctx}
    {btext : List (String × Value)} {index : Nat} {slug : String}
    {side : Option String} {rs : List String}
    {r : Except PyExn (List (String × Option TextSource))}
    (h : resolveRegions n ctx btext index slug side rs = some r) :
    resolveRegions m ctx btext index slug side rs = some r := by
  induction rs generalizing r with
  | nil => exact h
  | cons a rs ih =>
    unfold resolveRegions at h ⊢
    cases hc : resolveRefF n ctx.lib ((assocGet btext a).getD .vnone) index
        slug a side ctx.preferInline with
    | none => simp [hc] at h
    | some e =>
      rw [resolveRefF_mono_le hnm hc]
      simp only [hc] at h
      cases e with
      | error ex => exact h
      | ok ts =>
        cases hrr : resolveRegions n ctx btext index slug side rs with
        | none => simp [hrr] at h
        | some rr =>
          rw [ih hrr]
          simp only [hrr] at h
          exact h

theorem resolveRegions_no_valueError {n : Nat} {ctx : Ctx}
    {btext : List (String × Value)} {index : Nat} {slug : String}
    {side : Option String} {rs : List String} {e : PyExn}
    (h : resolveRegions n ctx btext index slug side rs =
      some (Except.error e)) : e = PyExn.attrError := by
  induction rs with
  | nil => simp [resolveRegions] at h
  | cons a rs ih =>
    unfold resolveRegions at h
    cases hc : resolveRefF n ctx.lib ((assocGet btext a).getD .vnone) index
        slug a side ctx.preferInline with
    | none => simp [hc] at h
    | some r =>
      simp only [hc] at h
      cases r with
      | error ex =>
        simp at h
        subst h
        exact resolveRefF_no_valueError hc
      | ok ts =>
        cases hrr : resolveRegions n ctx btext index slug side rs with
        | none => simp [hrr] at h
        | some rr =>
          simp only [hrr] at h
          cases rr with
          | error ex2 =>
            simp at h
            subst h
            exact ih hrr
          | ok xs => simp at h

theorem resolveRegions_ok_combine {ctx : Ctx}
    {btext : List (String × Value)} {index : Nat} {slug : String}
    {side : Option String} {rs : List String}
    (hall : ∀ rname ∈ rs, ∃ n ts,
      resolveRefF n ctx.lib ((assocGet btext rname).getD .vnone) index slug
        rname side ctx.preferInline = some (Except.ok ts)) :
    ∃ n xs, resolveRegions n ctx btext index slug side rs =
      some (Except.ok xs) := by
  induction rs with
  | nil => exact ⟨1, [], rfl⟩
  | cons a rs ih =>
    obtain ⟨n1, ts, h1⟩ := hall a (List.mem_cons_self _ _)
    obtain ⟨n2, xs, h2⟩ := ih (fun r hr => hall r (List.mem_cons_of_mem _ hr))
    refine ⟨max n1 n2, (a, ts) :: xs, ?_⟩
    unfold resolveRegions
    rw [resolveRefF_mono_le (le_max_left n1 n2) h1,
      resolveRegions_mono_le (le_max_right n1 n2) h2]

theorem subPages_mono_le {n m : Nat} (hnm : n ≤ m) {ctx : Ctx} {nb : Nat}
    {b : Block} {kind : String} {rem idx pn : Nat}
    {r : Except PyExn (List PageSpec)}
    (h : subPages n ctx nb b kind rem idx pn = some r) :
    subPages m ctx nb b kind rem idx pn = some r := by
  induction rem generalizing idx pn r with
  | zero => exact h
  | succ rem ih =>
    unfold subPages at h ⊢
    cases himg : b.image with
    | none => simp only [himg] at h ⊢; exact h
    | some img =>
      simp only [himg] at h ⊢
      by_cases he : img = ""
      · rw [if_pos he] at h ⊢; exact h
      · rw [if_neg he] at h ⊢
        cases hrr : resolveRegions n ctx b.text idx (effSlug b nb)
            (if kind = "spread" then some (if idx = 0 then "left" else "right")
              else none) ctx.regions with
        | none => simp [hrr] at h
        | some rr =>
          rw [resolveRegions_mono_le hnm hrr]
          simp only [hrr] at h
          cases rr with
          | error e => exact h
          | ok trefs =>
            cases hsp : subPages n ctx nb b kind rem (idx + 1) (pn + 1) with
            | none => simp [hsp] at h
            | some sp =>
              rw [ih hsp]
              simp only [hsp] at h
              exact h

theorem subPages_valueError_imgMissing {n : Nat} {ctx : Ctx} {nb : Nat}
    {b : Block} {kind : String} {rem idx pn : Nat} {msg : String}
    (h : subPages n ctx nb b kind rem idx pn =
      some (Except.error (.valueError msg))) : imgMissing b = true := by
  induction rem generalizing idx pn with
  | zero => simp [subPages] at h
  | succ rem ih =>
    unfold subPages at h
    cases himg : b.image with
    | none => rw [imgMissing, himg]
    | some img =>
      simp only [himg] at h
      by_cases he : img = ""
      · rw [imgMissing, himg]
        simp [he]
      · rw [if_neg he] at h
        cases hrr : resolveRegions n ctx b.text idx (effSlug b nb)
            (if kind = "spread" then some (if idx = 0 then "left" else "right")
              else none) ctx.regions with
        | none => simp [hrr] at h
        | some rr =>
          simp only [hrr] at h
          cases rr with
          | error e =>
            simp at h
            have := resolveRegions_no_valueError hrr
            rw [h] at this
            cases this
          | ok trefs =>
            cases hsp : subPages n ctx nb b kind rem (idx + 1) (pn + 1) with
            | none => simp [hsp] at h
            | some sp =>
              simp only [hsp] at h
              cases sp with
              | error e2 =>
                simp at h
                subst e2
                exact ih hsp
              | ok ps => simp at h

theorem subPages_imgMissing_error {n : Nat} {ctx : Ctx} {nb : Nat}
    {b : Block} {kind : String} {rem idx pn : Nat}
    (himg : imgMissing b = true) :
    subPages n ctx nb b kind (rem + 1) idx pn =
      some (Except.error (.valueError
        ("Every page needs an image (slug=" ++ effSlug b nb ++ ")"))) := by
  unfold subPages
  rw [imgMissing] at himg
  cases hb : b.image with
  | none => rfl
  | some img =>
    rw [hb] at himg
    simp at himg
    simp [himg]


example (s n : Nat) : List.range' s (n + 1) = s :: List.range' (s + 1) n := rfl

theorem range_add_split (s m n : Nat) :
    List.range' s m ++ List.range' (s + m) n = List.range' s (m + n) := by
  have := List.range'_append s m n 1
  simp only [one_mul, Nat.mul_one] at this
  rw [Nat.add_comm m n]
  simp only [this]

theorem get_of_map_range {A : Type} (f : A → Nat) :
    ∀ (ps : List A) (s : Nat),
    ps.map f = List.range' s ps.length →
    ∀ i (hi : i < ps.length), f (ps.get ⟨i, hi⟩) = s + i := by
  intro ps
  induction ps with
  | nil => intro s h i hi; cases hi
  | cons a ps ih =>
    intro s h i hi
    have hr : List.range' s (ps.length + 1) = s :: List.range' (s + 1)
        ps.length := rfl
    rw [List.map_cons, List.length_cons, hr] at h
    simp at h
    cases i with
    | zero => exact h.1
    | succ i =>
      have hi2 : i < ps.length := by
        simp at hi
        omega
      have := ih (s + 1) h.2 i hi2
      rw [List.get_cons_succ]
      rw [this]
      omega

theorem subPages_ok_facts {n : Nat} {ctx : Ctx} {nb : Nat} {b : Block}
    {kind : String} {rem idx pn : Nat} {ps : List PageSpec}
    (h : subPages n ctx nb b kind rem idx pn = some (Except.ok ps)) :
    ps.length = rem ∧
    ps.map (fun p => p.page_number) = List.range' pn rem ∧
    (∀ p ∈ ps, p.slug = effSlug b nb) := by
  induction rem generalizing idx pn ps with
  | zero =>
    simp [subPages] at h
    subst h
    exact ⟨rfl, rfl, fun p hp => by cases hp⟩
  | succ rem ih =>
    unfold subPages at h
    cases himg : b.image with
    | none => simp [himg] at h
    | some img =>
      simp only [himg] at h
      by_cases he : img = ""
      · rw [if_pos he] at h; simp at h
      · rw [if_neg he] at h
        cases hrr : resolveRegions n ctx b.text idx (effSlug b nb)
            (if kind = "spread" then some (if idx = 0 then "left" else "right")
              else none) ctx.regions with
        | none => simp [hrr] at h
        | some rr =>
          simp only [hrr] at h
          cases rr with
          | error e => simp at h
          | ok trefs =>
            cases hsp : subPages n ctx nb b kind rem (idx + 1) (pn + 1) with
            | none => simp [hsp] at h
            | some sp =>
              simp only [hsp] at h
              cases sp with
              | error e2 => simp at h
              | ok ps2 =>
                simp at h
                obtain ⟨hlen, hnum, hslug⟩ := ih hsp
                subst h
                refine ⟨by simp [hlen], ?_, ?_⟩
                · show pn :: ps2.map (fun p => p.page_number) =
                    List.range' pn (rem + 1)
                  rw [hnum]
                  rfl
                · intro p hp
                  rcases List.mem_cons.mp hp with h1 | h1
                  · subst h1; rfl
                  · exact hslug p h1

theorem expandGo_mono_le {n m : Nat} (hnm : n ≤ m) {ctx : Ctx} {nb : Nat}
    {blocks : List Block} {pn : Nat} {r : Except PyExn (List PageSpec)}
    (h : expandGo n ctx nb blocks pn = some r) :
    expandGo m ctx nb blocks pn = some r := by
  induction blocks generalizing pn r with
  | nil => exact h
  | cons b rest ih =>
    unfold expandGo at h ⊢
    by_cases h1 : effSpanInt b (normKind b) < 1
    · rw [if_pos h1] at h ⊢; exact h
    · rw [if_neg h1] at h ⊢
      by_cases h2 : normKind b = "spread" ∧ pn % 2 = 1
      · rw [if_pos h2] at h ⊢; exact h
      · rw [if_neg h2] at h ⊢
        cases hsp : subPages n ctx nb b (normKind b)
            (effSpanInt b (normKind b)).toNat 0 pn with
        | none => simp [hsp] at h
        | some sp =>
          rw [subPages_mono_le hnm hsp]
          simp only [hsp] at h
          cases sp with
          | error e => exact h
          | ok ps =>
            cases hgo : expandGo n ctx nb rest
                (pn + (effSpanInt b (normKind b)).toNat) with
            | none => simp [hgo] at h
            | some go =>
              rw [ih hgo]
              simp only [hgo] at h
              exact h

theorem expandGo_ok_facts {n : Nat} {ctx : Ctx} {nb : Nat}
    {blocks : List Block} {pn : Nat} {ps : List PageSpec}
    (h : expandGo n ctx nb blocks pn = some (Except.ok ps)) :
    ps.length = sumSpans blocks ∧
    ps.map (fun p => p.page_number) = List.range' pn (sumSpans blocks) := by
  induction blocks generalizing pn ps with
  | nil =>
    simp [expandGo] at h
    subst h
    exact ⟨rfl, rfl⟩
  | cons b rest ih =>
    unfold expandGo at h
    by_cases h1 : effSpanInt b (normKind b) < 1
    · rw [if_pos h1] at h; simp at h
    · rw [if_neg h1] at h
      by_cases h2 : normKind b = "spread" ∧ pn % 2 = 1
      · rw [if_pos h2] at h; simp at h
      · rw [if_neg h2] at h
        cases hsp : subPages n ctx nb b (normKind b)
            (effSpanInt b (normKind b)).toNat 0 pn with
        | none => simp [hsp] at h
        | some sp =>
          simp only [hsp] at h
          cases sp with
          | error e => simp at h
          | ok ps1 =>
            cases hgo : expandGo n ctx nb rest
                (pn + (effSpanInt b (normKind b)).toNat) with
            | none => simp [hgo] at h
            | some go =>
              simp only [hgo] at h
              cases go with
              | error e2 => simp at h
              | ok ps2 =>
                simp at h
                obtain ⟨hl1, hm1, _⟩ := subPages_ok_facts hsp
                obtain ⟨hl2, hm2⟩ := ih hgo
                subst h
                have hsum : sumSpans (b :: rest) =
                    (effSpanInt b (normKind b)).toNat + sumSpans rest := by
                  simp [sumSpans]
                constructor
                · simp [hl1, hl2, hsum]
                · rw [List.map_append, hm1, hm2, hsum]
                  exact range_add_split pn _ _

theorem expandGo_append {n : Nat} {ctx : Ctx} {nb : Nat}
    {l1 l2 : List Block} {pn : Nat} {ps : List PageSpec}
    (h : expandGo n ctx nb (l1 ++ l2) pn = some (Except.ok ps)) :
    ∃ ps1 ps2, expandGo n ctx nb l1 pn = some (Except.ok ps1) ∧
      expandGo n ctx nb l2 (pn + sumSpans l1) = some (Except.ok ps2) ∧
      ps = ps1 ++ ps2 ∧ ps1.length = sumSpans l1 := by
  induction l1 generalizing pn ps with
  | nil =>
    refine ⟨[], ps, rfl, ?_, by simp, by simp [sumSpans]⟩
    simpa [sumSpans] using h
  | cons b rest ih =>
    rw [List.cons_append] at h
    unfold expandGo at h
    by_cases h1 : effSpanInt b (normKind b) < 1
    · rw [if_pos h1] at h; simp at h
    · rw [if_neg h1] at h
      by_cases h2 : normKind b = "spread" ∧ pn % 2 = 1
      · rw [if_pos h2] at h; simp at h
      · rw [if_neg h2] at h
        cases hsp : subPages n ctx nb b (normKind b)
            (effSpanInt b (normKind b)).toNat 0 pn with
        | none => simp [hsp] at h
        | some sp =>
          simp only [hsp] at h
          cases sp with
          | error e => simp at h
          | ok psb =>
            cases hgo : expandGo n ctx nb (rest ++ l2)
                (pn + (effSpanInt b (normKind b)).toNat) with
            | none => simp [hgo] at h
            | some go =>
              simp only [hgo] at h
              cases go with
              | error e2 => simp at h
              | ok ps2 =>
                simp at h
                subst h
                obtain ⟨qs1, qs2, hq1, hq2, hqeq, hqlen⟩ := ih hgo
                refine ⟨psb ++ qs1, qs2, ?_, ?_, ?_, ?_⟩
                · unfold expandGo
                  rw [if_neg h1, if_neg h2, hsp, hq1]
                · rw [show pn + sumSpans (b :: rest) =
                    pn + (effSpanInt b (normKind b)).toNat + sumSpans rest by
                      simp [sumSpans]; omega]
                  exact hq2
                · rw [hqeq, List.append_assoc]
                · obtain ⟨hl, _, _⟩ := subPages_ok_facts hsp
                  simp [hl, hqlen, sumSpans]

theorem expandGo_valueError_iff (ctx : Ctx) (nb : Nat) :
    ∀ (blocks : List Block) (pn : Nat),
    (∃ n msg, expandGo n ctx nb blocks pn =
      some (Except.error (.valueError msg))) ↔
      ReachesViol ctx nb blocks pn := by
  intro blocks
  induction blocks with
  | nil =>
    intro pn
    constructor
    · rintro ⟨n, msg, h⟩
      simp [expandGo] at h
    · intro h
      cases h
  | cons b rest ih =>
    intro pn
    constructor
    · rintro ⟨n, msg, h⟩
      show effSpanInt b (normKind b) < 1 ∨
        (normKind b = "spread" ∧ pn % 2 = 1) ∨ imgMissing b = true ∨
        ((∃ n ps, subPages n ctx nb b (normKind b)
            (effSpanInt b (normKind b)).toNat 0 pn =
            some (Except.ok ps)) ∧
          ReachesViol ctx nb rest (pn + (effSpanInt b (normKind b)).toNat))
      unfold expandGo at h
      by_cases h1 : effSpanInt b (normKind b) < 1
      · exact Or.inl h1
      · rw [if_neg h1] at h
        by_cases h2 : normKind b = "spread" ∧ pn % 2 = 1
        · exact Or.inr (Or.inl h2)
        · rw [if_neg h2] at h
          cases hsp : subPages n ctx nb b (normKind b)
              (effSpanInt b (normKind b)).toNat 0 pn with
          | none => simp [hsp] at h
          | some sp =>
            simp only [hsp] at h
            cases sp with
            | error e =>
              simp at h
              rw [h] at hsp
              obtain ⟨rem, hrem⟩ :
                  ∃ rem, (effSpanInt b (normKind b)).toNat = rem + 1 :=
                ⟨(effSpanInt b (normKind b)).toNat - 1, by omega⟩
              rw [hrem] at hsp
              exact Or.inr (Or.inr (Or.inl
                (subPages_valueError_imgMissing hsp)))
            | ok ps =>
              cases hgo : expandGo n ctx nb rest
                  (pn + (effSpanInt b (normKind b)).toNat) with
              | none => simp [hgo] at h
              | some go =>
                simp only [hgo] at h
                cases go with
                | error e2 =>
                  simp at h
                  rw [h] at hgo
                  exact Or.inr (Or.inr (Or.inr
                    ⟨⟨n, ps, hsp⟩, (ih _).mp ⟨n, msg, hgo⟩⟩))
                | ok ps2 => simp at h
    · intro hrv
      have hrv2 : effSpanInt b (normKind b) < 1 ∨
          (normKind b = "spread" ∧ pn % 2 = 1) ∨ imgMissing b = true ∨
          ((∃ n ps, subPages n ctx nb b (normKind b)
              (effSpanInt b (normKind b)).toNat 0 pn =
              some (Except.ok ps)) ∧
            ReachesViol ctx nb rest
              (pn + (effSpanInt b (normKind b)).toNat)) := hrv
      by_cases h1 : effSpanInt b (normKind b) < 1
      · refine ⟨1, "Page span must be >= 1 (slug=" ++ pyStr (rawSlugV b) ++
          ")", ?_⟩
        unfold expandGo
        rw [if_pos h1]
      · by_cases h2 : normKind b = "spread" ∧ pn % 2 = 1
        · refine ⟨1, "Spread " ++ pyQuote ++ pyStr (rawSlugV b) ++ pyQuote ++
            " must start on a left-hand page. Insert a blank page before it " ++
            "so it begins on an even page number.", ?_⟩
          unfold expandGo
          rw [if_neg h1, if_pos h2]
        · have hrv3 : imgMissing b = true ∨
              ((∃ n ps, subPages n ctx nb b (normKind b)
                  (effSpanInt b (normKind b)).toNat 0 pn =
                  some (Except.ok ps)) ∧
                ReachesViol ctx nb rest
                  (pn + (effSpanInt b (normKind b)).toNat)) := by
            rcases hrv2 with h | h | h | h
            · exact absurd h h1
            · exact absurd h h2
            · exact Or.inl h
            · exact Or.inr h
          rcases hrv3 with himg | ⟨⟨n1, ps, hps⟩, hrest⟩
          · obtain ⟨rem, hrem⟩ :
                ∃ rem, (effSpanInt b (normKind b)).toNat = rem + 1 :=
              ⟨(effSpanInt b (normKind b)).toNat - 1, by omega⟩
            refine ⟨1, "Every page needs an image (slug=" ++ effSlug b nb ++
              ")", ?_⟩
            unfold expandGo
            rw [if_neg h1, if_neg h2, hrem, subPages_imgMissing_error himg]
          · obtain ⟨n2, msg, hgo⟩ := (ih _).mpr hrest
            refine ⟨max n1 n2, msg, ?_⟩
            unfold expandGo
            rw [if_neg h1, if_neg h2,
              subPages_mono_le (le_max_left n1 n2) hps,
              expandGo_mono_le (le_max_right n1 n2) hgo]

/-! ## C3: the expander's configuration errors -/

/-- C3: the page expander raises a configuration error (`ValueError`)
if and only if, walking the blocks in order and threading the running
page number, it reaches a block whose span is less than 1, or a spread
block whose first sub-page would be assigned an odd page number, or a
block with no (or an empty) image name; a spread landing on an even
page number passes the parity check.  Blocks behind a text-resolution
exception or divergence are never reached. -/
theorem c3_config_error_iff (ctx : Ctx) (blocks : List Block) :
    (∃ n msg, expandPagesF n ctx blocks =
      some (Except.error (.valueError msg))) ↔
      ReachesViol ctx blocks.length blocks 1 :=
  expandGo_valueError_iff ctx blocks.length blocks 1

/-! ## C4: sequential page numbering -/

/-- C4: every accepted expansion yields exactly one record per sub-page
of every block's span (the record count is the sum of the effective
spans) and assigns page numbers 1, 2, 3, ... consecutively across block
boundaries. -/
theorem c4_page_numbering (fuel : Nat) (ctx : Ctx) (blocks : List Block)
    (ps : List PageSpec)
    (h : expandPagesF fuel ctx blocks = some (Except.ok ps)) :
    ps.length = sumSpans blocks ∧
    ∀ i (hi : i < ps.length), (ps.get ⟨i, hi⟩).page_number = i + 1 := by
  obtain ⟨hlen, hmap⟩ := expandGo_ok_facts h
  refine ⟨hlen, ?_⟩
  intro i hi
  have hmap2 : ps.map (fun p => p.page_number) =
      List.range' 1 ps.length := by
    rw [hmap, hlen]
  have := get_of_map_range (fun p => p.page_number) ps 1 hmap2 i hi
  rw [this]
  omega

/-- A one-page block followed by a spread: the expander context for the
witnesses. -/
def cW : Ctx := ⟨[], [], false, "imgs", 1, 0, 0⟩

/-- A page block and a spread block, both with images. -/
def bW : List Block :=
  [⟨some "c", none, none, some "c.png", [], none, none, none⟩,
   ⟨some "s1", some (.vstr "spread"), none, some "w.png", [], none, none,
     none⟩]

/-- The three records `bW` expands to. -/
def psW : List PageSpec :=
  [⟨"c", 0, 1, "page", none, "imgs/c.png", 1, 0, 0, []⟩,
   ⟨"s1", 0, 2, "spread", some "left", "imgs/w.png", 1, 0, 0, []⟩,
   ⟨"s1", 1, 3, "spread", some "right", "imgs/w.png", 1, 0, 0, []⟩]

/-- Witness for C4: the concrete two-block expansion is accepted, has
three records (1 + 2 sub-pages) and numbers them 1, 2, 3. -/
theorem c4_witness :
    expandPagesF 1 cW bW = some (Except.ok psW) ∧
    psW.length = sumSpans bW ∧
    (psW.get ⟨0, by decide⟩).page_number = 1 ∧
    (psW.get ⟨1, by decide⟩).page_number = 2 ∧
    (psW.get ⟨2, by decide⟩).page_number = 3 :=
  ⟨rfl, (c4_page_numbering 1 cW bW psW rfl).1,
   (c4_page_numbering 1 cW bW psW rfl).2 0 (by decide),
   (c4_page_numbering 1 cW bW psW rfl).2 1 (by decide),
   (c4_page_numbering 1 cW bW psW rfl).2 2 (by decide)⟩

/-! ## C10: the fallback slug -/

/-- A singleton block list expands through its sub-page loop alone. -/
theorem expandGo_single {n : Nat} {ctx : Ctx} {nb : Nat} {b : Block}
    {pn : Nat} {ps : List PageSpec}
    (h : expandGo n ctx nb [b] pn = some (Except.ok ps)) :
    subPages n ctx nb b (normKind b) (effSpanInt b (normKind b)).toNat 0
      pn = some (Except.ok ps) := by
  unfold expandGo at h
  by_cases h1 : effSpanInt b (normKind b) < 1
  · rw [if_pos h1] at h; simp at h
  · rw [if_neg h1] at h
    by_cases h2 : normKind b = "spread" ∧ pn % 2 = 1
    · rw [if_pos h2] at h; simp at h
    · rw [if_neg h2] at h
      cases hsp : subPages n ctx nb b (normKind b)
          (effSpanInt b (normKind b)).toNat 0 pn with
      | none => simp [hsp] at h
      | some sp =>
        simp only [hsp] at h
        cases sp with
        | error e => simp at h
        | ok ps1 =>
          simp [expandGo] at h
          subst h
          rfl

/-- C10: a block with an absent or empty slug receives the fallback
slug `page-N` on every one of its sub-pages, where `N` is the total
number of blocks in the expanded list (not the block's position), so
all slug-less blocks of one run share the identical slug. -/
theorem c10_fallback_slug (fuel : Nat) (ctx : Ctx) (pre : List Block)
    (b : Block) (post : List Block) (ps : List PageSpec)
    (h : expandPagesF fuel ctx (pre ++ b :: post) = some (Except.ok ps))
    (hslug : b.slug = none ∨ b.slug = some "") :
    ∀ p ∈ (ps.drop (sumSpans pre)).take
      ((effSpanInt b (normKind b)).toNat),
      p.slug = "page-" ++ toString (pre ++ b :: post).length := by
  unfold expandPagesF at h
  obtain ⟨ps1, ps2, h1, h2, heq, hlen⟩ := expandGo_append h
  have h2b : expandGo fuel ctx (pre ++ b :: post).length ([b] ++ post)
      (1 + sumSpans pre) = some (Except.ok ps2) := h2
  obtain ⟨psb, psc, hb, hc, heq2, hlenb⟩ := expandGo_append h2b
  have hsp := expandGo_single hb
  obtain ⟨hblen, _, hbslug⟩ := subPages_ok_facts hsp
  have heff : effSlug b (pre ++ b :: post).length =
      "page-" ++ toString (pre ++ b :: post).length := by
    rcases hslug with hx | hx <;> simp [effSlug, hx]
  have hshape : (ps.drop (sumSpans pre)).take
      ((effSpanInt b (normKind b)).toNat) = psb := by
    rw [heq, heq2, ← hlen, List.drop_left, ← hblen, List.take_left]
  intro p hp
  rw [hshape] at hp
  rw [hbslug p hp, heff]

/-- The pre-block with a slug, for the C10 witness. -/
def preW : List Block :=
  [⟨some "c", none, none, some "c.png", [], none, none, none⟩]

/-- The slug-less block of the C10 witness. -/
def bW10 : Block := ⟨none, none, none, some "b.png", [], none, none, none⟩

/-- The two records the C10 witness expands to: the second block, at
position 2 of 2, receives slug `page-2`. -/
def psW10 : List PageSpec :=
  [⟨"c", 0, 1, "page", none, "imgs/c.png", 1, 0, 0, []⟩,
   ⟨"page-2", 0, 2, "page", none, "imgs/b.png", 1, 0, 0, []⟩]

/-- Witness for C10 on the concrete two-block run. -/
theorem c10_witness :
    expandPagesF 1 cW (preW ++ bW10 :: []) = some (Except.ok psW10) ∧
    bW10.slug = none ∧
    (psW10.get ⟨1, by decide⟩).slug =
      "page-" ++ toString (preW ++ bW10 :: []).length :=
  ⟨rfl, rfl,
   c10_fallback_slug 1 cW preW bW10 [] psW10 rfl (Or.inl rfl)
     (psW10.get ⟨1, by decide⟩) (by decide)⟩

/-! ## C8: missing background images -/

theorem assocGet_append_of_none {l1 l2 : List (String × String)} {k : String}
    (h : assocGet l1 k = none) :
    assocGet (l1 ++ l2) k = assocGet l2 k := by
  induction l1 with
  | nil => rfl
  | cons p rest ih =>
    obtain ⟨k0, v0⟩ := p
    by_cases hk : k0 = k
    · simp [assocGet, hk] at h
    · simp [assocGet, hk] at h ⊢
      exact ih h

theorem setdefault_get (l : List (String × String)) (k v : String) :
    assocGet (setdefault l k v) k = some ((assocGet l k).getD v) := by
  unfold setdefault
  cases hl : assocGet l k with
  | some x => simp [hl]
  | none =>
    simp only [hl]
    rw [assocGet_append_of_none hl]
    simp [assocGet]

theorem drawText_ok_state {ctx : BCtx} {rname : String} {layout : RegionL}
    {ts : TextSource} {pn : Nat} {side : Option String} {slug : String}
    {st st2 : BState} (h : drawText ctx rname layout ts pn side slug st =
      Except.ok st2) :
    st2.total = st.total ∧ st2.withArt = st.withArt ∧
    st2.missing = st.missing ∧ ∃ t, st2.ops = st.ops ++ t := by
  unfold drawText at h
  cases hc : textContent ctx rname layout ts with
  | error e => simp [hc] at h
  | ok content =>
    simp only [hc] at h
    by_cases he : content = ""
    · rw [if_pos he] at h
      simp at h
      subst h
      exact ⟨rfl, rfl, rfl, [], by simp⟩
    · rw [if_neg he] at h
      simp at h
      subst h
      exact ⟨rfl, rfl, rfl,
        [ROp.text rname content (resolvedInsets layout.insets pn)], rfl⟩

theorem drawText_isOk_indep (ctx1 ctx2 : BCtx) (hf : ctx1.files = ctx2.files)
    (rname : String) (layout : RegionL) (ts : TextSource) (pn : Nat)
    (side : Option String) (slug : String) (st1 st2 : BState) :
    isOkE (drawText ctx1 rname layout ts pn side slug st1) =
      isOkE (drawText ctx2 rname layout ts pn side slug st2) := by
  have hcontent : textContent ctx1 rname layout ts =
      textContent ctx2 rname layout ts := by
    unfold textContent
    rw [hf]
  unfold drawText
  rw [hcontent]
  cases hc : textContent ctx2 rname layout ts with
  | error e => rfl
  | ok content =>
    by_cases he : content = "" <;> simp [he, isOkE]

theorem drawPageRegions_ok_state {ctx : BCtx} {p : PageSpec}
    {rs : List (String × RegionL)} {st st2 : BState}
    (h : drawPageRegions ctx p rs st = Except.ok st2) :
    st2.total = st.total ∧ st2.withArt = st.withArt ∧
    st2.missing = st.missing ∧ ∃ t, st2.ops = st.ops ++ t := by
  induction rs generalizing st with
  | nil =>
    simp [drawPageRegions] at h
    subst h
    exact ⟨rfl, rfl, rfl, [], by simp⟩
  | cons a rs ih =>
    obtain ⟨rname, layout⟩ := a
    unfold drawPageRegions at h
    cases ht : assocGet p.text_refs rname with
    | none =>
      simp only [ht] at h
      exact ih h
    | some o =>
      cases o with
      | none =>
        simp only [ht] at h
        exact ih h
      | some ts =>
        simp only [ht] at h
        cases hd : drawText ctx rname layout ts p.page_number p.spread_side
            p.slug st with
        | error e => simp [hd] at h
        | ok stm =>
          simp only [hd] at h
          obtain ⟨h1, h2, h3, t1, h4⟩ := drawText_ok_state hd
          obtain ⟨g1, g2, g3, t2, g4⟩ := ih h
          refine ⟨g1.trans h1, g2.trans h2, g3.trans h3, t1 ++ t2, ?_⟩
          rw [g4, h4, List.append_assoc]

theorem drawPageRegions_isOk_indep (ctx1 ctx2 : BCtx)
    (hf : ctx1.files = ctx2.files) (p : PageSpec)
    (rs : List (String × RegionL)) (st1 st2 : BState) :
    isOkE (drawPageRegions ctx1 p rs st1) =
      isOkE (drawPageRegions ctx2 p rs st2) := by
  induction rs generalizing st1 st2 with
  | nil => rfl
  | cons a rs ih =>
    obtain ⟨rname, layout⟩ := a
    unfold drawPageRegions
    cases ht : assocGet p.text_refs rname with
    | none =>
      simp only [ht]
      exact ih st1 st2
    | some o =>
      cases o with
      | none =>
        simp only [ht]
        exact ih st1 st2
      | some ts =>
        simp only [ht]
        have hiso := drawText_isOk_indep ctx1 ctx2 hf rname layout ts
          p.page_number p.spread_side p.slug st1 st2
        cases hd1 : drawText ctx1 rname layout ts p.page_number p.spread_side
            p.slug st1 with
        | error e1 =>
          cases hd2 : drawText ctx2 rname layout ts p.page_number
              p.spread_side p.slug st2 with
          | error e2 => rfl
          | ok sm2 =>
            rw [hd1, hd2] at hiso
            simp [isOkE] at hiso
        | ok sm1 =>
          cases hd2 : drawText ctx2 rname layout ts p.page_number
              p.spread_side p.slug st2 with
          | error e2 =>
            rw [hd1, hd2] at hiso
            simp [isOkE] at hiso
          | ok sm2 => exact ih sm1 sm2

theorem drawPage_ok_state {ctx : BCtx} {p : PageSpec} {hasImage : Bool}
    {st st2 : BState} (h : drawPage ctx p hasImage st = Except.ok st2) :
    st2.total = st.total ∧ st2.withArt = st.withArt ∧
    st2.missing = st.missing ∧
    ∃ t, st2.ops = st.ops ++ backgroundOps p hasImage ++ t := by
  unfold drawPage at h
  cases hr : drawPageRegions ctx p ctx.regions
      { st with ops := st.ops ++ backgroundOps p hasImage } with
  | error e => simp [hr] at h
  | ok st3 =>
    simp only [hr] at h
    simp at h
    subst h
    obtain ⟨h1, h2, h3, t, h4⟩ := drawPageRegions_ok_state hr
    refine ⟨h1, h2, h3, t ++ [ROp.showPage], ?_⟩
    show st3.ops ++ [ROp.showPage] = st.ops ++ backgroundOps p hasImage ++
      (t ++ [ROp.showPage])
    rw [h4]
    show st.ops ++ backgroundOps p hasImage ++ t ++ [ROp.showPage] = _
    rw [List.append_assoc (st.ops ++ backgroundOps p hasImage) t]

theorem drawPage_isOk_indep (ctx1 ctx2 : BCtx) (hf : ctx1.files = ctx2.files)
    (hr : ctx1.regions = ctx2.regions) (p : PageSpec) (b1 b2 : Bool)
    (st1 st2 : BState) :
    isOkE (drawPage ctx1 p b1 st1) = isOkE (drawPage ctx2 p b2 st2) := by
  unfold drawPage
  have hiso := drawPageRegions_isOk_indep ctx1 ctx2 hf p ctx1.regions
    { st1 with ops := st1.ops ++ backgroundOps p b1 }
    { st2 with ops := st2.ops ++ backgroundOps p b2 }
  rw [← hr]
  cases hd1 : drawPageRegions ctx1 p ctx1.regions
      { st1 with ops := st1.ops ++ backgroundOps p b1 } with
  | error e1 =>
    cases hd2 : drawPageRegions ctx2 p ctx1.regions
        { st2 with ops := st2.ops ++ backgroundOps p b2 } with
    | error e2 => rfl
    | ok sm2 =>
      rw [hd1, hd2] at hiso
      simp [isOkE] at hiso
  | ok sm1 =>
    cases hd2 : drawPageRegions ctx2 p ctx1.regions
        { st2 with ops := st2.ops ++ backgroundOps p b2 } with
    | error e2 =>
      rw [hd1, hd2] at hiso
      simp [isOkE] at hiso
    | ok sm2 => rfl

theorem buildStep_isOk_imgs (ctx : BCtx) (imgs2 : List String) (st : BState)
    (p : PageSpec) :
    isOkE (buildStep { ctx with imgs := imgs2 } st p) =
      isOkE (buildStep ctx st p) := by
  unfold buildStep
  have hiso := drawPage_isOk_indep { ctx with imgs := imgs2 } ctx rfl rfl p
    (pathExists imgs2 p.image_path) (pathExists ctx.imgs p.image_path)
    (if pathExists imgs2 p.image_path then st
      else { st with missing := setdefault st.missing p.slug p.image_path })
    (if pathExists ctx.imgs p.image_path then st
      else { st with missing := setdefault st.missing p.slug p.image_path })
  cases hd1 : drawPage { ctx with imgs := imgs2 } p
      (pathExists imgs2 p.image_path)
      (if pathExists imgs2 p.image_path then st
        else { st with missing := setdefault st.missing p.slug p.image_path })
      with
  | error e1 =>
    cases hd2 : drawPage ctx p (pathExists ctx.imgs p.image_path)
        (if pathExists ctx.imgs p.image_path then st
          else { st with missing := setdefault st.missing p.slug p.image_path })
        with
    | error e2 => rfl
    | ok sm2 =>
      rw [hd1, hd2] at hiso
      simp [isOkE] at hiso
  | ok sm1 =>
    cases hd2 : drawPage ctx p (pathExists ctx.imgs p.image_path)
        (if pathExists ctx.imgs p.image_path then st
          else { st with missing := setdefault st.missing p.slug p.image_path })
        with
    | error e2 =>
      rw [hd1, hd2] at hiso
      simp [isOkE] at hiso
    | ok sm2 => rfl



/-- The renderer context for the C8 scenario: no regions, no text files,
no existing images. -/
def bctxE : BCtx := ⟨[], [], []⟩

/-- The initial build state. -/
def stE : BState := ⟨0, 0, [], [], 0, []⟩

/-- Two slug-less blocks with distinct images (both get the fallback
slug `page-2`). -/
def blocksE : List Block :=
  [⟨none, none, none, some "a.png", [], none, none, none⟩,
   ⟨none, none, none, some "b.png", [], none, none, none⟩]

/-- The two records `blocksE` expands to: identical slugs, distinct
image paths. -/
def psE : List PageSpec :=
  [⟨"page-2", 0, 1, "page", none, "imgs/a.png", 1, 0, 0, []⟩,
   ⟨"page-2", 0, 2, "page", none, "imgs/b.png", 1, 0, 0, []⟩]

/-- C8 counterexample: both pages miss their images and the build
completes with placeholders, but the missing-images report
(`setdefault`, keyed by slug) holds only the first page's path under
the shared slug `page-2`, so the second page's slug/path pair is not
recorded as the claim states. -/
theorem c8_counterexample :
    expandPagesF 1 cW blocksE = some (Except.ok psE) ∧
    buildFold bctxE stE psE = Except.ok
      ⟨2, 0, [("page-2", "imgs/a.png")],
       [ROp.rectWhite, ROp.diagLine, ROp.diagLine, ROp.showPage,
        ROp.rectWhite, ROp.diagLine, ROp.diagLine, ROp.showPage], 0, []⟩ ∧
    pathExists bctxE.imgs (psE.get ⟨1, by decide⟩).image_path = false ∧
    assocGet [("page-2", "imgs/a.png")] (psE.get ⟨1, by decide⟩).slug ≠
      some ((psE.get ⟨1, by decide⟩).image_path) :=
  ⟨rfl, rfl, rfl, by decide⟩

/-- C8 (amended): a page whose image file does not exist never makes
the build step fail because of the image (the step's success is
unchanged under any image file set), renders the placeholder background
(white fill plus two diagonal marker lines) before its text, is
excluded from the pages-with-art count while still counted in the
total, and records its slug in the missing-images report mapped to its
own image path when the slug is new — and to the first-recorded path
for that slug otherwise (`setdefault`). -/
theorem c8_amended_missing_image (ctx : BCtx) (st : BState) (p : PageSpec)
    (st2 : BState) (h : buildStep ctx st p = Except.ok st2)
    (himg : pathExists ctx.imgs p.image_path = false) :
    st2.total = st.total + 1 ∧
    st2.withArt = st.withArt ∧
    (st2.ops.drop st.ops.length).take 3 =
      [ROp.rectWhite, ROp.diagLine, ROp.diagLine] ∧
    assocGet st2.missing p.slug =
      some ((assocGet st.missing p.slug).getD p.image_path) ∧
    ∀ imgs2, isOkE (buildStep { ctx with imgs := imgs2 } st p) =
      isOkE (buildStep ctx st p) := by
  unfold buildStep at h
  rw [himg] at h
  simp only [Bool.false_eq_true, if_false] at h
  cases hd : drawPage ctx p false
      { st with missing := setdefault st.missing p.slug p.image_path } with
  | error e => rw [hd] at h; simp at h
  | ok st3 =>
    rw [hd] at h
    simp at h
    obtain ⟨g1, g2, g3, t, g4⟩ := drawPage_ok_state hd
    subst h
    refine ⟨?_, ?_, ?_, ?_, fun imgs2 => buildStep_isOk_imgs ctx imgs2 st p⟩
    · show st3.total + 1 = st.total + 1
      rw [g1]
    · show st3.withArt + 0 = st.withArt
      rw [g2]
      rfl
    · show (st3.ops.drop st.ops.length).take 3 =
        [ROp.rectWhite, ROp.diagLine, ROp.diagLine]
      rw [g4]
      show ((st.ops ++ backgroundOps p false ++ t).drop st.ops.length).take 3
        = [ROp.rectWhite, ROp.diagLine, ROp.diagLine]
      rw [List.append_assoc, List.drop_left]
      rfl
    · show assocGet st3.missing p.slug =
        some ((assocGet st.missing p.slug).getD p.image_path)
      rw [g3]
      exact setdefault_get st.missing p.slug p.image_path

/-- The first expanded page of the C8 scenario. -/
def pE1 : PageSpec := ⟨"page-2", 0, 1, "page", none, "imgs/a.png", 1, 0, 0, []⟩

/-- The build state after processing `pE1` with its image missing. -/
def stE1 : BState :=
  ⟨1, 0, [("page-2", "imgs/a.png")],
   [ROp.rectWhite, ROp.diagLine, ROp.diagLine, ROp.showPage], 0, []⟩

/-- Witness for the amended C8 on the concrete missing-image page. -/
theorem c8_witness :
    buildStep bctxE stE pE1 = Except.ok stE1 ∧
    pathExists bctxE.imgs pE1.image_path = false ∧
    stE1.total = stE.total + 1 ∧
    stE1.withArt = stE.withArt ∧
    (stE1.ops.drop stE.ops.length).take 3 =
      [ROp.rectWhite, ROp.diagLine, ROp.diagLine] ∧
    assocGet stE1.missing pE1.slug =
      some ((assocGet stE.missing pE1.slug).getD pE1.image_path) ∧
    isOkE (buildStep { bctxE with imgs := ["imgs/a.png"] } stE pE1) =
      isOkE (buildStep bctxE stE pE1) := by
  have h := c8_amended_missing_image bctxE stE pE1 stE1 rfl rfl
  exact ⟨rfl, rfl, h.1, h.2.1, h.2.2.1, h.2.2.2.1, h.2.2.2.2 ["imgs/a.png"]⟩
